import Mathlib

/-
  Verification development for the stream-prelude framing protocol.

  The wire unit is a frame: magic marker (4 bytes), length (4-byte big-endian
  unsigned integer), JSON payload (length bytes, UTF-8), followed by opaque
  body bytes.  This file gives a shallow embedding of the buffer-based frame
  grammar (encodePrelude, decodePrelude, getPreludeSize), the header
  validation helpers (assertMagicList, validatePrelude, assertSerializable,
  validateJsonLength), the incremental push-mode adapter
  (parsePreludeTransform) as an explicit state machine, and the pull-based
  stream entry points (parsePrelude, isFramedStream) as state-passing
  functions over an abstract source-stream state.

  Buffers are modelled as List Nat (one Nat per byte).  JavaScript values
  that can appear in a header are modelled by the mutual inductive family
  JsValue / JsArr / JsObj below; JSON.stringify and JSON.parse are platform
  builtins (not part of this repository), so they are modelled from the
  specification of the wire format: a canonical serializer and a
  recursive-descent byte parser, restricted to integer numerals and to the
  whitespace-free form the serializer emits.
-/

set_option maxHeartbeats 1600000

namespace StreamPrelude

/-- Modelled from the spec: the constants module is not among the provided
source files; the spec fixes the default marker as a 4-byte ASCII token
(PRE1, per the API documentation in the source), a 4-byte big-endian length
field, default maximum payload size 16384 and default version 1. -/
def MAGIC_LENGTH : Nat := 4

/-- Modelled from the spec: byte width of the length field. -/
def LENGTH_BYTES : Nat := 4

/-- Modelled from the spec: the default magic marker PRE1 as bytes. -/
def DEFAULT_MAGIC : List Nat := [80, 82, 69, 49]

/-- Modelled from the spec: default maximum JSON payload size in bytes. -/
def DEFAULT_MAX_JSON_BYTES : Nat := 16384

/-- Error taxonomy of the library: each constructor corresponds to one of the
error classes in src/errors.ts, plus typeError for JavaScript TypeError and
sourceError for an error event raised by the source stream itself. -/
inductive PErr where
  | typeError (msg : String)
  | magicMismatch
  | truncated
  | jsonTooLarge
  | jsonParse (msg : String)
  | invalidType
  | flowingMode
  | invalidStream
  | sourceError
deriving Repr, DecidableEq

/-- Message of the PreludeJsonParseError default constructor. -/
def failedParseMsg : String := "Failed to parse JSON payload"

/-- Message of the empty-payload PreludeJsonParseError raised by
validateJsonLength when the declared length is zero. -/
def emptyPayloadMsg : String := "JSON payload must be non-empty"

/-- Buffer writeUInt32BE: the four big-endian bytes of n.  Node throws a
RangeError above 2^32 - 1, a region unreachable in practice because V8
strings are far shorter than 2^32 bytes; the model truncates modulo 2^32
instead. -/
def writeUInt32BE (n : Nat) : List Nat :=
  [n / 2 ^ 24 % 256, n / 2 ^ 16 % 256, n / 2 ^ 8 % 256, n % 256]

/-- Buffer readUInt32BE at offset off: big-endian 32-bit read.  Out-of-range
reads (never reached: all call sites guard the length first) yield 0 bytes. -/
def readUInt32BE (l : List Nat) (off : Nat) : Nat :=
  l.getD off 0 * 2 ^ 24 + l.getD (off + 1) 0 * 2 ^ 16 +
    l.getD (off + 2) 0 * 2 ^ 8 + l.getD (off + 3) 0

/-- JavaScript number values as they matter to the frame grammar: integers
(the only numerals the JSON model serializes and parses) and the non-finite
values NaN, Infinity and -Infinity, which JSON.stringify silently renders as
null. Non-integer finite doubles are outside the model. -/
inductive JsNumber where
  | int (i : Int)
  | nan
  | inf
  | negInf
deriving Repr, DecidableEq

mutual
/-- JavaScript values reachable from a header object: JSON primitives,
arrays, plain objects, plus the undefined value and exotic objects (values
that are neither JSON primitives nor arrays nor plain objects, such as
functions or class instances, and that lack a toJSON method). Strings are
byte lists (UTF-8); object keys are byte lists in insertion order. -/
inductive JsValue where
  | str (s : List Nat)
  | num (n : JsNumber)
  | bool (b : Bool)
  | null
  | undef
  | exotic
  | arr (a : JsArr)
  | obj (o : JsObj)
deriving Repr
/-- Array of JavaScript values (a List shaped as part of the mutual family
so that all recursions stay structural). -/
inductive JsArr where
  | nil
  | cons (v : JsValue) (rest : JsArr)
deriving Repr
/-- Plain-object fields in insertion order: key bytes paired with values. -/
inductive JsObj where
  | nil
  | cons (k : List Nat) (v : JsValue) (rest : JsObj)
deriving Repr
end

/-- Key bytes of the reserved version key v. -/
def keyV : List Nat := [118]

/-- Keys of an object field list, in order. -/
def JsObj.keys : JsObj → List (List Nat)
  | .nil => []
  | .cons k _ rest => k :: rest.keys

/-- Whether the object has an own property with the given key, mirroring
Object.prototype.hasOwnProperty. -/
def JsObj.hasKey : JsObj → List Nat → Bool
  | .nil, _ => false
  | .cons k _ rest, key => k = key || rest.hasKey key

/-- Append of field lists. -/
def JsObj.append : JsObj → JsObj → JsObj
  | .nil, o => o
  | .cons k v rest, o => .cons k v (rest.append o)

/-- Assignment of one property, mirroring JavaScript property set: an
existing key keeps its position and gets the new value, a fresh key is
appended. -/
def JsObj.set : JsObj → List Nat → JsValue → JsObj
  | .nil, key, v => .cons key v .nil
  | .cons k w rest, key, v =>
    if k = key then .cons k v rest else .cons k w (rest.set key v)

/-- Spread of the fields of add over base, one property assignment per
field in order, mirroring the object literal spread syntax. -/
def JsObj.spread (base : JsObj) : JsObj → JsObj
  | .nil => base
  | .cons k v rest => (base.set k v).spread rest

/-- Decimal digit bytes of a natural number, most significant first; the
fuel argument is the standard structural-recursion bound and is always
sufficient at n itself. -/
def natDigitsAux : Nat → Nat → List Nat
  | 0, _ => []
  | fuel + 1, n =>
    if n < 10 then [48 + n] else natDigitsAux fuel (n / 10) ++ [48 + n % 10]

/-- Decimal digit bytes of a natural number. -/
def natBytes (n : Nat) : List Nat := natDigitsAux (n + 1) n

/-- Decimal representation of an integer as JSON.stringify renders an
integer-valued number: optional minus sign followed by digits. -/
def intBytes (i : Int) : List Nat :=
  if i < 0 then 45 :: natBytes i.natAbs else natBytes i.natAbs

/-- Lowercase hexadecimal digit byte. -/
def hexDigit (d : Nat) : Nat := if d < 10 then 48 + d else 87 + d

/-- String escaping as performed by JSON.stringify on each byte: quote and
backslash get two-character escapes, the control bytes 8, 9, 10, 12, 13 get
their short escapes, other bytes below 32 get a lowercase unicode escape,
everything else is emitted literally. -/
def escBytes : List Nat → List Nat
  | [] => []
  | c :: r =>
    (if c = 34 then [92, 34]
     else if c = 92 then [92, 92]
     else if c = 8 then [92, 98]
     else if c = 9 then [92, 116]
     else if c = 10 then [92, 110]
     else if c = 12 then [92, 102]
     else if c = 13 then [92, 114]
     else if c < 32 then [92, 117, 48, 48, hexDigit (c / 16), hexDigit (c % 16)]
     else [c]) ++ escBytes r

/-- Quoted, escaped JSON string literal for the given byte string. -/
def strLit (s : List Nat) : List Nat := 34 :: escBytes s ++ [34]

/-- Whether JSON.stringify skips an object member with this value:
undefined-valued and exotic (function-like) members are omitted. -/
def skippable : JsValue → Bool
  | .undef => true
  | .exotic => true
  | _ => false

/-- Whether any member of the field list survives serialization (used for
comma placement while serializing an object). -/
def hasEmittable : JsObj → Bool
  | .nil => false
  | .cons _ v rest => !skippable v || hasEmittable rest

mutual
/-- Modelled from the spec: JSON.stringify is a platform builtin.  Canonical
serializer of a JavaScript value to UTF-8 JSON bytes, no whitespace, object
members in insertion order, non-finite numbers rendered as null, undefined
and exotic values rendered as null in array position (they are filtered out
of objects before serialization, and the call sites only ever pass plain
objects at top level). -/
def stringifyVal : JsValue → List Nat
  | .str s => strLit s
  | .num (.int i) => intBytes i
  | .num .nan => [110, 117, 108, 108]
  | .num .inf => [110, 117, 108, 108]
  | .num .negInf => [110, 117, 108, 108]
  | .bool true => [116, 114, 117, 101]
  | .bool false => [102, 97, 108, 115, 101]
  | .null => [110, 117, 108, 108]
  | .undef => [110, 117, 108, 108]
  | .exotic => [110, 117, 108, 108]
  | .arr a => 91 :: stringifyArr a ++ [93]
  | .obj o => 123 :: stringifyObj o ++ [125]
/-- Comma-separated serialization of array elements. -/
def stringifyArr : JsArr → List Nat
  | .nil => []
  | .cons v .nil => stringifyVal v
  | .cons v (.cons w rest) => stringifyVal v ++ 44 :: stringifyArr (.cons w rest)
/-- Comma-separated serialization of object members, skipping members whose
value serializes to undefined, exactly as JSON.stringify does. -/
def stringifyObj : JsObj → List Nat
  | .nil => []
  | .cons k v rest =>
    if skippable v then stringifyObj rest
    else if hasEmittable rest then
      (strLit k ++ 58 :: stringifyVal v) ++ 44 :: stringifyObj rest
    else strLit k ++ 58 :: stringifyVal v
end

/-- Message used by assertSerializable (the source interpolates the offending
path into the message; the model keeps the fixed suffix). -/
def nonSerializableMsg : String := "contains a non-serializable value"

mutual
/-- Recursive encode-time validation from src/utils (assertSerializable):
strings, numbers (including the non-finite ones, since the source only
checks typeof), booleans and null pass; arrays and plain objects recurse;
anything else, in particular undefined and exotic objects, raises a
TypeError. -/
def assertSerializable : JsValue → Except PErr Unit
  | .str _ => .ok ()
  | .num _ => .ok ()
  | .bool _ => .ok ()
  | .null => .ok ()
  | .arr a => assertSerializableArr a
  | .obj o => assertSerializableObj o
  | .undef => .error (.typeError nonSerializableMsg)
  | .exotic => .error (.typeError nonSerializableMsg)
/-- Element-wise serializability check of an array. -/
def assertSerializableArr : JsArr → Except PErr Unit
  | .nil => .ok ()
  | .cons v rest =>
    match assertSerializable v with
    | .error e => .error e
    | .ok _ => assertSerializableArr rest
/-- Member-wise serializability check of a plain object. -/
def assertSerializableObj : JsObj → Except PErr Unit
  | .nil => .ok ()
  | .cons _ v rest =>
    match assertSerializable v with
    | .error e => .error e
    | .ok _ => assertSerializableObj rest
end

mutual
/-- Boolean mirror of assertSerializable, used to state theorems. -/
def serializableVal : JsValue → Bool
  | .str _ => true
  | .num _ => true
  | .bool _ => true
  | .null => true
  | .arr a => serializableArr a
  | .obj o => serializableObj o
  | .undef => false
  | .exotic => false
/-- Boolean mirror for arrays. -/
def serializableArr : JsArr → Bool
  | .nil => true
  | .cons v rest => serializableVal v && serializableArr rest
/-- Boolean mirror for object members. -/
def serializableObj : JsObj → Bool
  | .nil => true
  | .cons _ v rest => serializableVal v && serializableObj rest
end

/-- Whether the value is a plain object, mirroring isPlainObject from
src/utils (prototype check): only plain objects qualify; arrays, null and
primitives do not. -/
def isPlainObjectB : JsValue → Bool
  | .obj _ => true
  | _ => false

/-- Per-entry part of validatePrelude: an undefined value raises a TypeError
naming the key, every other value goes through assertSerializable. -/
def validateFields : JsObj → Except PErr Unit
  | .nil => .ok ()
  | .cons _ v rest =>
    match v with
    | .undef => .error (.typeError "prelude value is undefined")
    | _ =>
      match assertSerializable v with
      | .error e => .error e
      | .ok _ => validateFields rest

/-- Encode-time header validation from src/utils (validatePrelude): the
header must be a plain object, must not declare the reserved key v, and
every entry must be defined and serializable. -/
def validatePrelude : JsValue → Except PErr Unit
  | .obj o =>
    if o.hasKey keyV then
      .error (.typeError "prelude must not declare the reserved key v")
    else validateFields o
  | _ => .error (.typeError "prelude must be a plain object")

/-- Name used by the API module for the same validation function. -/
def validateHeaders : JsValue → Except PErr Unit := validatePrelude

/-- Validation of a single magic token (assertMagic): the encoded byte
length must be exactly 4. -/
def assertMagic (m : List Nat) : Except PErr (List Nat) :=
  if m.length = MAGIC_LENGTH then .ok m
  else .error (.typeError "magic must be exactly 4 bytes")

/-- Validation of each token of a list in order, failing on the first bad
one. -/
def assertMagicEach : List (List Nat) → Except PErr (List (List Nat))
  | [] => .ok []
  | m :: rest =>
    match assertMagic m with
    | .error e => .error e
    | .ok b =>
      match assertMagicEach rest with
      | .error e => .error e
      | .ok bs => .ok (b :: bs)

/-- Marker-set normalization (assertMagicList): an absent option defaults to
the single canonical token, a caller-supplied collection is validated
token by token preserving order.  A single non-array token at a JS call
site is passed here as a one-element list. -/
def assertMagicList (magic : Option (List (List Nat))) : Except PErr (List (List Nat)) :=
  assertMagicEach (match magic with | none => [DEFAULT_MAGIC] | some ms => ms)

/-- Length-bounds validation (validateJsonLength): the integer and
non-negativity checks of the source are vacuous for Nat; a length above the
maximum raises PreludeJsonTooLargeError and a zero length raises the
empty-payload PreludeJsonParseError, in that order. -/
def validateJsonLength (len max : Nat) : Except PErr Unit :=
  if len > max then .error .jsonTooLarge
  else if len = 0 then .error (.jsonParse emptyPayloadMsg)
  else .ok ()

/-- Prelude buffer layout (makePreludeBuffer): magic, big-endian length of
the JSON payload, then the payload itself. -/
def makePreludeBuffer (magic json : List Nat) : List Nat :=
  magic ++ writeUInt32BE json.length ++ json

/-- Object spread of the version entry followed by the header fields,
mirroring the payload construction with the v key first. A non-object
header contributes no fields (the validated call sites never pass one). -/
def spreadV (version : Int) (headers : JsValue) : JsValue :=
  .obj ((JsObj.cons keyV (.num (.int version)) .nil).spread
    (match headers with | .obj o => o | _ => .nil))

/-- Options accepted by encodePrelude and getPreludeSize: a single magic
token, a version number and a maximum payload size. -/
structure EncodeOpts where
  magic : Option (List Nat) := none
  version : Option Int := none
  maxJsonBytes : Option Nat := none

/-- Options accepted by decodePrelude: one or more magic tokens and a
maximum payload size. -/
structure DecodeOpts where
  magic : Option (List (List Nat)) := none
  maxJsonBytes : Option Nat := none

/-- Options accepted by frameStream: one or more magic tokens (the first is
used for encoding), a version number and a maximum payload size. -/
structure FrameOpts where
  magic : Option (List (List Nat)) := none
  version : Option Int := none
  maxJsonBytes : Option Nat := none

/-- Buffer-based encoder (encodePrelude): validates the magic and the
header, serializes the header merged after the version entry, validates the
payload length and produces magic, length and payload bytes. -/
def encodePrelude (headers : JsValue) (opts : EncodeOpts) : Except PErr (List Nat) :=
  match assertMagicList (opts.magic.map fun m => [m]) with
  | .error e => .error e
  | .ok magics =>
    match magics with
    | [] => .error (.typeError "magic list is empty")
    | magic :: _ =>
      let version := opts.version.getD 1
      let maxJsonBytes := opts.maxJsonBytes.getD DEFAULT_MAX_JSON_BYTES
      match validateHeaders headers with
      | .error e => .error e
      | .ok _ =>
        let jsonBuffer := stringifyVal (spreadV version headers)
        match validateJsonLength jsonBuffer.length maxJsonBytes with
        | .error e => .error e
        | .ok _ => .ok (makePreludeBuffer magic jsonBuffer)

/-- Size calculator (getPreludeSize): performs the same validation and
serialization as encodePrelude and returns magic length plus length-field
width plus payload length without materializing the buffer. -/
def getPreludeSize (headers : JsValue) (opts : EncodeOpts) : Except PErr Nat :=
  match assertMagicList (opts.magic.map fun m => [m]) with
  | .error e => .error e
  | .ok magics =>
    match magics with
    | [] => .error (.typeError "magic list is empty")
    | magic :: _ =>
      let version := opts.version.getD 1
      let maxJsonBytes := opts.maxJsonBytes.getD DEFAULT_MAX_JSON_BYTES
      match validateHeaders headers with
      | .error e => .error e
      | .ok _ =>
        let jsonBuffer := stringifyVal (spreadV version headers)
        match validateJsonLength jsonBuffer.length maxJsonBytes with
        | .error e => .error e
        | .ok _ => .ok (magic.length + LENGTH_BYTES + jsonBuffer.length)

/-- Streaming encoder (frameStream) reduced to the bytes the framed stream
delivers: the prelude followed by the source bytes.  The PassThrough
plumbing (backpressure and error forwarding) is outside the byte-level
model; the validation chain is identical to encodePrelude except that the
magic option may hold several tokens, of which the first is used. -/
def frameStream (sourceBytes : List Nat) (headers : JsValue) (opts : FrameOpts) :
    Except PErr (List Nat) :=
  match assertMagicList opts.magic with
  | .error e => .error e
  | .ok magics =>
    match magics with
    | [] => .error (.typeError "magic list is empty")
    | magic :: _ =>
      let version := opts.version.getD 1
      let maxJsonBytes := opts.maxJsonBytes.getD DEFAULT_MAX_JSON_BYTES
      match validateHeaders headers with
      | .error e => .error e
      | .ok _ =>
        let jsonBuffer := stringifyVal (spreadV version headers)
        match validateJsonLength jsonBuffer.length maxJsonBytes with
        | .error e => .error e
        | .ok _ => .ok (makePreludeBuffer magic jsonBuffer ++ sourceBytes)

/-- Hexadecimal digit value accepted inside a unicode escape. -/
def hexVal (c : Nat) : Option Nat :=
  if 48 ≤ c ∧ c ≤ 57 then some (c - 48)
  else if 97 ≤ c ∧ c ≤ 102 then some (c - 87)
  else if 65 ≤ c ∧ c ≤ 70 then some (c - 55)
  else none

/-- Prefix a successfully parsed string with one more byte. -/
def consStr (c : Nat) : Except PErr (List Nat × List Nat) → Except PErr (List Nat × List Nat)
  | .ok (s, r) => .ok (c :: s, r)
  | .error e => .error e

/-- String-body parser, positioned just after the opening quote: literal
bytes up to the closing quote, with the JSON escape sequences.  Unicode
escapes are only decoded below 128 (the serializer only emits them for
control bytes); code points above that would need UTF-8 re-encoding and are
outside the model. -/
def parseStr : List Nat → Except PErr (List Nat × List Nat)
  | [] => .error (.jsonParse failedParseMsg)
  | c :: r =>
    if c = 34 then .ok ([], r)
    else if c = 92 then
      match r with
      | [] => .error (.jsonParse failedParseMsg)
      | e1 :: r1 =>
        if e1 = 34 then consStr 34 (parseStr r1)
        else if e1 = 92 then consStr 92 (parseStr r1)
        else if e1 = 47 then consStr 47 (parseStr r1)
        else if e1 = 98 then consStr 8 (parseStr r1)
        else if e1 = 102 then consStr 12 (parseStr r1)
        else if e1 = 110 then consStr 10 (parseStr r1)
        else if e1 = 114 then consStr 13 (parseStr r1)
        else if e1 = 116 then consStr 9 (parseStr r1)
        else if e1 = 117 then
          match r1 with
          | h1 :: h2 :: h3 :: h4 :: r2 =>
            match hexVal h1, hexVal h2, hexVal h3, hexVal h4 with
            | some a, some b, some c2, some d =>
              let n := ((a * 16 + b) * 16 + c2) * 16 + d
              if n < 128 then consStr n (parseStr r2)
              else .error (.jsonParse failedParseMsg)
            | _, _, _, _ => .error (.jsonParse failedParseMsg)
          | _ => .error (.jsonParse failedParseMsg)
        else .error (.jsonParse failedParseMsg)
    else consStr c (parseStr r)

/-- Whether c is a decimal digit byte. -/
def isDigit (c : Nat) : Bool := 48 ≤ c && c ≤ 57

/-- Value of a digit byte sequence, most significant first. -/
def digitsToNat (ds : List Nat) : Nat := ds.foldl (fun acc d => acc * 10 + (d - 48)) 0

/-- Numeral parser: one or more decimal digits.  Fractions, exponents and
the leading-zero restriction of full JSON are outside the model, which only
needs the integer numerals the serializer emits. -/
def parseNatNum (input : List Nat) : Except PErr (Nat × List Nat) :=
  let ds := input.takeWhile isDigit
  if ds.isEmpty then .error (.jsonParse failedParseMsg)
  else .ok (digitsToNat ds, input.dropWhile isDigit)

/-- Task of the JSON parser: a full value, the elements of an array after
the opening bracket (returns the arr value), or the members of an object
after the opening brace (returns the obj value). -/
inductive PTask where
  | value
  | elems
  | members

/-- Literal-word recognizer: the input must continue with the given bytes. -/
def expectWord (w : List Nat) (res : JsValue) (input : List Nat) :
    Except PErr (JsValue × List Nat) :=
  if input.take w.length = w then .ok (res, input.drop w.length)
  else .error (.jsonParse failedParseMsg)

/-- Wrap a parsed string body as a string value. -/
def strResult : Except PErr (List Nat × List Nat) → Except PErr (JsValue × List Nat)
  | .ok (s, r2) => .ok (.str s, r2)
  | .error e => .error e

/-- Wrap a parsed numeral as a negative integer value. -/
def negResult : Except PErr (Nat × List Nat) → Except PErr (JsValue × List Nat)
  | .ok (n, r2) => .ok (.num (.int (-(n : Int))), r2)
  | .error e => .error e

/-- Wrap a parsed numeral as a non-negative integer value. -/
def posResult : Except PErr (Nat × List Nat) → Except PErr (JsValue × List Nat)
  | .ok (n, r2) => .ok (.num (.int (n : Int)), r2)
  | .error e => .error e

/-- Prepend a parsed element to a parsed array tail. -/
def consElem (v : JsValue) : Except PErr (JsValue × List Nat) → Except PErr (JsValue × List Nat)
  | .ok (.arr rest, r3) => .ok (.arr (.cons v rest), r3)
  | .ok _ => .error (.jsonParse failedParseMsg)
  | .error e => .error e

/-- Prepend a parsed member to a parsed object tail. -/
def consMember (k : List Nat) (v : JsValue) :
    Except PErr (JsValue × List Nat) → Except PErr (JsValue × List Nat)
  | .ok (.obj rest, r5) => .ok (.obj (.cons k v rest), r5)
  | .ok _ => .error (.jsonParse failedParseMsg)
  | .error e => .error e

/-- Modelled from the spec: JSON.parse is a platform builtin.
Recursive-descent parser over bytes, fueled (the fuel only bounds the
nesting recursion; jsonParse supplies input length plus one, which the
roundtrip theorems show sufficient for serializer output).  Restricted to
the whitespace-free canonical form with integer numerals. -/
def parseF : Nat → PTask → List Nat → Except PErr (JsValue × List Nat)
  | 0, _, _ => .error (.jsonParse failedParseMsg)
  | fuel + 1, .value, input =>
    match input with
    | [] => .error (.jsonParse failedParseMsg)
    | c :: r =>
      if c = 110 then expectWord [117, 108, 108] .null r
      else if c = 116 then expectWord [114, 117, 101] (.bool true) r
      else if c = 102 then expectWord [97, 108, 115, 101] (.bool false) r
      else if c = 34 then strResult (parseStr r)
      else if c = 91 then
        match r with
        | [] => .error (.jsonParse failedParseMsg)
        | c2 :: r2 => if c2 = 93 then .ok (.arr .nil, r2) else parseF fuel .elems (c2 :: r2)
      else if c = 123 then
        match r with
        | [] => .error (.jsonParse failedParseMsg)
        | c2 :: r2 => if c2 = 125 then .ok (.obj .nil, r2) else parseF fuel .members (c2 :: r2)
      else if c = 45 then negResult (parseNatNum r)
      else if isDigit c then posResult (parseNatNum input)
      else .error (.jsonParse failedParseMsg)
  | fuel + 1, .elems, input =>
    match parseF fuel .value input with
    | .error e => .error e
    | .ok (v, r1) =>
      match r1 with
      | [] => .error (.jsonParse failedParseMsg)
      | c :: r2 =>
        if c = 44 then consElem v (parseF fuel .elems r2)
        else if c = 93 then .ok (.arr (.cons v .nil), r2)
        else .error (.jsonParse failedParseMsg)
  | fuel + 1, .members, input =>
    match input with
    | [] => .error (.jsonParse failedParseMsg)
    | c0 :: r =>
      if c0 = 34 then
        match parseStr r with
        | .error e => .error e
        | .ok (k, r1) =>
          match r1 with
          | [] => .error (.jsonParse failedParseMsg)
          | c1 :: r2 =>
            if c1 = 58 then
              match parseF fuel .value r2 with
              | .error e => .error e
              | .ok (v, r3) =>
                match r3 with
                | [] => .error (.jsonParse failedParseMsg)
                | c3 :: r4 =>
                  if c3 = 44 then consMember k v (parseF fuel .members r4)
                  else if c3 = 125 then .ok (.obj (.cons k v .nil), r4)
                  else .error (.jsonParse failedParseMsg)
            else .error (.jsonParse failedParseMsg)
      else .error (.jsonParse failedParseMsg)

/-- Modelled from the spec: JSON.parse of a whole byte string, requiring the
input to be consumed completely. -/
def jsonParse (bytes : List Nat) : Except PErr JsValue :=
  match parseF (bytes.length + 1) .value bytes with
  | .ok (v, []) => .ok v
  | .ok _ => .error (.jsonParse failedParseMsg)
  | .error e => .error e

mutual
/-- Values on which serialization and parsing round-trip: JSON primitives
with integer numerals, arrays and objects of such values.  Non-finite
numbers are excluded (they serialize to null), as are undefined and exotic
values. -/
def rtVal : JsValue → Bool
  | .str _ => true
  | .num (.int _) => true
  | .num .nan => false
  | .num .inf => false
  | .num .negInf => false
  | .bool _ => true
  | .null => true
  | .undef => false
  | .exotic => false
  | .arr a => rtArr a
  | .obj o => rtObj o
/-- Round-trippable arrays. -/
def rtArr : JsArr → Bool
  | .nil => true
  | .cons v rest => rtVal v && rtArr rest
/-- Round-trippable object field lists. -/
def rtObj : JsObj → Bool
  | .nil => true
  | .cons _ v rest => rtVal v && rtObj rest
end

mutual
/-- Parser-fuel weight of a value: enough nesting fuel for parseF. -/
def wVal : JsValue → Nat
  | .arr a => 1 + wArr a
  | .obj o => 1 + wObj o
  | _ => 1
/-- Parser-fuel weight of array elements. -/
def wArr : JsArr → Nat
  | .nil => 0
  | .cons v rest => wVal v + 1 + wArr rest
/-- Parser-fuel weight of object members. -/
def wObj : JsObj → Nat
  | .nil => 0
  | .cons _ v rest => wVal v + 1 + wObj rest
end

/-- Continuation constraint for numeral parsing: the bytes following a
serialized value must not start with a digit (in every context the parser
meets, the next byte is a comma, a closing bracket or brace, or the input
ends). -/
def restNotDigit : List Nat → Prop
  | [] => True
  | c :: _ => isDigit c = false

/-- Buffer-based decoder after marker-set normalization (the body of
decodePrelude): truncation check for marker plus length field, marker
membership, big-endian length read, length-bounds validation, truncation
check for the payload, JSON parse (any parse failure is rethrown as the
default PreludeJsonParseError), plain-object check, and finally the headers
with the body offset. -/
def decodePreludeCore (magics : List (List Nat)) (maxJsonBytes : Nat)
    (buffer : List Nat) : Except PErr (JsValue × Nat) :=
  if buffer.length < MAGIC_LENGTH + LENGTH_BYTES then .error .truncated
  else
    let sliceMagic := buffer.take MAGIC_LENGTH
    if ¬ magics.any (· = sliceMagic) then .error .magicMismatch
    else
      let jsonLength := readUInt32BE buffer MAGIC_LENGTH
      match validateJsonLength jsonLength maxJsonBytes with
      | .error e => .error e
      | .ok _ =>
        let start := MAGIC_LENGTH + LENGTH_BYTES
        let stop := start + jsonLength
        if buffer.length < stop then .error .truncated
        else
          match jsonParse ((buffer.drop start).take jsonLength) with
          | .error _ => .error (.jsonParse failedParseMsg)
          | .ok parsed =>
            if isPlainObjectB parsed then .ok (parsed, stop)
            else .error .invalidType

/-- Buffer-based decoder (decodePrelude). -/
def decodePrelude (buffer : List Nat) (opts : DecodeOpts) : Except PErr (JsValue × Nat) :=
  match assertMagicList opts.magic with
  | .error e => .error e
  | .ok magics => decodePreludeCore magics (opts.maxJsonBytes.getD DEFAULT_MAX_JSON_BYTES) buffer

mutual
/-- Proof-valued definition (mutual recursion over the value family):
assertSerializable succeeds exactly on the values the Boolean mirror
accepts. -/
def serializable_iff_val : ∀ v : JsValue, assertSerializable v = .ok () ↔ serializableVal v = true
  | .str _ => by simp [assertSerializable, serializableVal]
  | .num _ => by simp [assertSerializable, serializableVal]
  | .bool _ => by simp [assertSerializable, serializableVal]
  | .null => by simp [assertSerializable, serializableVal]
  | .undef => by simp [assertSerializable, serializableVal]
  | .exotic => by simp [assertSerializable, serializableVal]
  | .arr a => by
    have h := serializable_iff_arr a
    simpa [assertSerializable, serializableVal] using h
  | .obj o => by
    have h := serializable_iff_obj o
    simpa [assertSerializable, serializableVal] using h
/-- Array case of serializable_iff_val. -/
def serializable_iff_arr : ∀ a : JsArr, assertSerializableArr a = .ok () ↔ serializableArr a = true
  | .nil => by simp [assertSerializableArr, serializableArr]
  | .cons v rest => by
    have h1 := serializable_iff_val v
    have h2 := serializable_iff_arr rest
    cases hv : assertSerializable v with
    | error e =>
      rw [hv] at h1
      have hsv : serializableVal v = false := by
        rcases Bool.eq_false_or_eq_true (serializableVal v) with hb | hb
        · exact absurd (h1.mpr hb) (by simp)
        · exact hb
      simp [assertSerializableArr, serializableArr, hv, hsv]
    | ok u =>
      cases u
      rw [hv] at h1
      have hsv : serializableVal v = true := h1.mp rfl
      simp [assertSerializableArr, serializableArr, hv, hsv, h2]
/-- Object case of serializable_iff_val. -/
def serializable_iff_obj : ∀ o : JsObj, assertSerializableObj o = .ok () ↔ serializableObj o = true
  | .nil => by simp [assertSerializableObj, serializableObj]
  | .cons _ v rest => by
    have h1 := serializable_iff_val v
    have h2 := serializable_iff_obj rest
    cases hv : assertSerializable v with
    | error e =>
      rw [hv] at h1
      have hsv : serializableVal v = false := by
        rcases Bool.eq_false_or_eq_true (serializableVal v) with hb | hb
        · exact absurd (h1.mpr hb) (by simp)
        · exact hb
      simp [assertSerializableObj, serializableObj, hv, hsv]
    | ok u =>
      cases u
      rw [hv] at h1
      have hsv : serializableVal v = true := h1.mp rfl
      simp [assertSerializableObj, serializableObj, hv, hsv, h2]
end

/-- Single-motive structural recursor for JsObj (the mutual family only has
a multi-motive recursor, which the induction tactic does not accept). -/
def JsObj.recAux {motive : JsObj → Sort _} (nil : motive .nil)
    (cons : ∀ k v rest, motive rest → motive (.cons k v rest)) : ∀ o, motive o
  | .nil => nil
  | .cons k v rest => cons k v rest (JsObj.recAux nil cons rest)

/-- Single-motive structural recursor for JsArr. -/
def JsArr.recAux {motive : JsArr → Sort _} (nil : motive .nil)
    (cons : ∀ v rest, motive rest → motive (.cons v rest)) : ∀ a, motive a
  | .nil => nil
  | .cons v rest => cons v rest (JsArr.recAux nil cons rest)

/-- Stage of the incremental state machine of parsePreludeTransform. -/
inductive Stage where
  | magic
  | length
  | json
  | body
deriving Repr, DecidableEq

/-- State of the transform between chunks: current stage, bytes needed to
advance the stage, accumulation buffer, and the declared JSON length once
the length field has been read. -/
structure TState where
  stage : Stage
  needed : Nat
  buffer : List Nat
  jsonLength : Nat
deriving Repr, DecidableEq

/-- Events the transform makes observable downstream: the out-of-band
prelude event and pushed data chunks, in emission order. -/
inductive TEvent where
  | prelude (h : JsValue)
  | data (bs : List Nat)

/-- Initial transform state: expecting the four magic bytes. -/
def initialTState : TState := ⟨.magic, MAGIC_LENGTH, [], 0⟩

/-- Json stage of the while loop: with enough buffered bytes, slice the
payload, parse it (any parse failure is rethrown as the default
PreludeJsonParseError), validate the object shape, emit the prelude event
and enter the body stage keeping the leftover buffered. -/
def drainJson (jl : Nat) (buffer : List Nat) : Except PErr (TState × List TEvent) :=
  if buffer.length < jl then .ok (⟨.json, jl, buffer, jl⟩, [])
  else
    match jsonParse (buffer.take jl) with
    | .error _ => .error (.jsonParse failedParseMsg)
    | .ok parsed =>
      if isPlainObjectB parsed then .ok (⟨.body, 0, buffer.drop jl, jl⟩, [.prelude parsed])
      else .error .invalidType

/-- Length stage: read the big-endian length field, validate it against the
maximum, and continue into the json stage. -/
def drainLength (maxJsonBytes jl0 : Nat) (buffer : List Nat) :
    Except PErr (TState × List TEvent) :=
  if buffer.length < LENGTH_BYTES then .ok (⟨.length, LENGTH_BYTES, buffer, jl0⟩, [])
  else
    match validateJsonLength (readUInt32BE buffer 0) maxJsonBytes with
    | .error e => .error e
    | .ok _ => drainJson (readUInt32BE buffer 0) (buffer.drop LENGTH_BYTES)

/-- Magic stage: slice the first four bytes; on a marker match continue into
the length stage, otherwise emit the empty prelude event, push the probed
bytes (and any remaining buffered input) through and become a
pass-through. -/
def drainMagic (magics : List (List Nat)) (maxJsonBytes jl0 : Nat) (buffer : List Nat) :
    Except PErr (TState × List TEvent) :=
  if buffer.length < MAGIC_LENGTH then .ok (⟨.magic, MAGIC_LENGTH, buffer, jl0⟩, [])
  else
    let slice := buffer.take MAGIC_LENGTH
    let rest := buffer.drop MAGIC_LENGTH
    if ¬ magics.any (· = slice) then
      .ok (⟨.body, 0, [], jl0⟩,
        [.prelude (.obj .nil), .data slice] ++ if rest = [] then [] else [.data rest])
    else drainLength maxJsonBytes jl0 rest

/-- One run of the while loop, dispatched on the current stage (in the body
stage the loop does nothing; the post-loop flush is separate). -/
def drainState (magics : List (List Nat)) (maxJsonBytes : Nat) (s : TState) :
    Except PErr (TState × List TEvent) :=
  match s.stage with
  | .magic => drainMagic magics maxJsonBytes s.jsonLength s.buffer
  | .length => drainLength maxJsonBytes s.jsonLength s.buffer
  | .json => drainJson s.jsonLength s.buffer
  | .body => .ok (s, [])

/-- Post-loop flush: once the body stage is reached, any buffered bytes are
pushed downstream immediately and the buffer is cleared. -/
def flushT : Except PErr (TState × List TEvent) → Except PErr (TState × List TEvent)
  | .error e => .error e
  | .ok (s1, evs) =>
    if s1.stage = .body ∧ s1.buffer ≠ [] then
      .ok (⟨s1.stage, s1.needed, [], s1.jsonLength⟩, evs ++ [.data s1.buffer])
    else .ok (s1, evs)

/-- Transform callback for one incoming chunk: append it to the
accumulation buffer, run the loop, flush. -/
def transformChunk (magics : List (List Nat)) (maxJsonBytes : Nat) (s : TState)
    (chunk : List Nat) : Except PErr (TState × List TEvent) :=
  flushT (drainState magics maxJsonBytes ⟨s.stage, s.needed, s.buffer ++ chunk, s.jsonLength⟩)

/-- Run of the transform over a whole chunk sequence, accumulating the
event trace. -/
def runChunks (magics : List (List Nat)) (maxJsonBytes : Nat) (s : TState) :
    List (List Nat) → Except PErr (TState × List TEvent)
  | [] => .ok (s, [])
  | c :: cs =>
    match transformChunk magics maxJsonBytes s c with
    | .error e => .error e
    | .ok (s1, e1) =>
      match runChunks magics maxJsonBytes s1 cs with
      | .error e => .error e
      | .ok (s2, e2) => .ok (s2, e1 ++ e2)

/-- Push-mode adapter (parsePreludeTransform) over a chunk sequence:
normalize the marker set at construction time, then feed the chunks to the
state machine from the initial state. -/
def parsePreludeTransform (magic : Option (List (List Nat))) (maxJsonBytes : Option Nat)
    (chunks : List (List Nat)) : Except PErr (TState × List TEvent) :=
  match assertMagicList magic with
  | .error e => .error e
  | .ok magics =>
    runChunks magics (maxJsonBytes.getD DEFAULT_MAX_JSON_BYTES) initialTState chunks

/-- Concatenation of a chunk sequence into one buffer. -/
def concatChunks : List (List Nat) → List Nat
  | [] => []
  | c :: cs => c ++ concatChunks cs

/-- Prelude events of a trace, in order. -/
def preludesOf : List TEvent → List JsValue
  | [] => []
  | .prelude h :: rest => h :: preludesOf rest
  | .data _ :: rest => preludesOf rest

/-- Concatenated data bytes of a trace. -/
def dataOf : List TEvent → List Nat
  | [] => []
  | .prelude _ :: rest => dataOf rest
  | .data bs :: rest => bs ++ dataOf rest

/-- Whether a trace contains no prelude event at all. -/
def noPrelude : List TEvent → Bool
  | [] => true
  | .prelude _ :: _ => false
  | .data _ :: rest => noPrelude rest

/-- Whether every prelude event of the trace precedes every data event. -/
def preludesBeforeData : List TEvent → Bool
  | [] => true
  | .prelude _ :: rest => preludesBeforeData rest
  | .data _ :: rest => noPrelude rest

/-- Shape of the state and trace a single transform callback produces:
either it has not reached the body stage yet and nothing was emitted, or
it has and the trace holds exactly one prelude event placed before all
data events. -/
def stepShape (s1 : TState) (evs : List TEvent) : Prop :=
  (¬ s1.stage = .body ∧ evs = []) ∨
  (s1.stage = .body ∧ (preludesOf evs).length = 1 ∧ preludesBeforeData evs = true)

/-- Sequencing of a transform result with a continuation on its final
state, concatenating the event traces. -/
def seqT (r : Except PErr (TState × List TEvent))
    (k : TState → Except PErr (TState × List TEvent)) :
    Except PErr (TState × List TEvent) :=
  match r with
  | .error e => .error e
  | .ok (s, evs) =>
    match k s with
    | .error e => .error e
    | .ok (s2, evs2) => .ok (s2, evs ++ evs2)

/-- Observational equivalence of transform results: same error, or same
final state with the same prelude sequence and the same concatenated data
bytes (individual data chunk boundaries may differ). -/
def EquivT : Except PErr (TState × List TEvent) → Except PErr (TState × List TEvent) → Prop
  | .error e1, .error e2 => e1 = e2
  | .ok (s1, e1), .ok (s2, e2) => s1 = s2 ∧ preludesOf e1 = preludesOf e2 ∧ dataOf e1 = dataOf e2
  | _, _ => False

/-- Pull-mode source stream reduced to the state parsePrelude interacts
with: the unread bytes (internal buffer and future chunks concatenated),
the flowing flag, the number of data listeners, whether unshift exists,
the internal buffered byte count consulted by the unshift-safety check, a
pending stream error delivered to a blocked read, and the destruction
state. -/
structure Source where
  bytes : List Nat
  flowing : Bool
  dataListeners : Nat
  hasUnshift : Bool
  readableLength : Nat
  srcError : Option PErr
  destroyed : Option PErr
deriving Repr, DecidableEq

/-- source.pause(): clears the flowing flag. -/
def pauseSource (s : Source) : Source := { s with flowing := false }

/-- source.destroy(error): marks the source failed with the error. -/
def destroySource (s : Source) (e : PErr) : Source := { s with destroyed := some e }

/-- readExactly: resolves with exactly size bytes consumed from the
source; with fewer bytes available it rejects, with the stream error if
the source raises one and with PreludeTruncatedError if the source simply
ends. -/
def readExactly (src : Source) (size : Nat) : Except PErr (List Nat × Source) :=
  if size ≤ src.bytes.length then
    .ok (src.bytes.take size, { src with bytes := src.bytes.drop size })
  else
    match src.srcError with
    | some e => .error e
    | none => .error .truncated

/-- Remainder stream handed back by parsePrelude: either the source itself
with probed bytes unshifted back (zero-copy path), or a PassThrough fed
the probed bytes and then piped from the source. -/
inductive Remainder where
  | unshifted (bs : List Nat)
  | passThrough (bs : List Nat)
deriving Repr, DecidableEq

/-- Concatenated bytes a consumer of the remainder observes. -/
def Remainder.contentBytes : Remainder → List Nat
  | .unshifted bs => bs
  | .passThrough bs => bs

/-- _tryUnshiftRemainderWithBytes: the zero-copy fallback remainder is only
used when the source has unshift, is not flowing and holds no buffered
bytes; it then carries the probed bytes followed by the rest of the
source. -/
def tryUnshiftRemainderWithBytes (s : Source) (bs : List Nat) : Option Remainder :=
  if s.hasUnshift = false then none
  else if s.flowing = true then none
  else if 0 < s.readableLength then none
  else some (.unshifted (bs ++ s.bytes))

/-- _createPassThroughRemainderWithBytes: PassThrough primed with the
probed bytes and piped from the source. -/
def passThroughRemainderWithBytes (s : Source) (bs : List Nat) : Remainder :=
  .passThrough (bs ++ s.bytes)

/-- _tryUnshiftRemainder: source returned directly when safe. -/
def tryUnshiftRemainder (s : Source) : Option Remainder :=
  if s.hasUnshift = false then none
  else if s.flowing = true then none
  else if 0 < s.readableLength then none
  else some (.unshifted s.bytes)

/-- _createPassThroughRemainder: PassThrough piped from the source. -/
def passThroughRemainder (s : Source) : Remainder := .passThrough s.bytes

/-- Fallback remainder selection after a marker mismatch. -/
def remainderWithBytes (s : Source) (bs : List Nat) : Remainder :=
  match tryUnshiftRemainderWithBytes s bs with
  | some r => r
  | none => passThroughRemainderWithBytes s bs

/-- Remainder selection after a successful parse. -/
def remainderNoBytes (s : Source) : Remainder :=
  match tryUnshiftRemainder s with
  | some r => r
  | none => passThroughRemainder s

/-- Options of the pull-mode parsePrelude (the onHeaders callback is
outside the byte-level model; its errors are swallowed by the source). -/
structure ParseOpts where
  magic : Option (List (List Nat)) := none
  maxJsonBytes : Option Nat := none
  requirePrelude : Bool := false
  autoPause : Bool := false

/-- Result of a successful parsePrelude: the headers and the remainder. -/
structure ParseResult where
  headers : JsValue
  remainder : Remainder
deriving Repr

/-- Deterministic-read-mode guard at the top of the try block: a source in
active flowing mode with data listeners attached is paused when autoPause
is set and rejected with PreludeFlowingModeError otherwise; the guard runs
once, before any read. -/
def flowGuard (autoPause : Bool) (s : Source) : Except PErr Source :=
  if s.flowing = true ∧ 0 < s.dataListeners then
    if autoPause then .ok (pauseSource s) else .error .flowingMode
  else .ok s

/-- Body of the parsePrelude try block: flow guard, pause, read and check
the marker (falling back to the empty header and a byte-preserving
remainder without requirePrelude), read and validate the length field,
read and parse the payload, check the plain-object shape, and build the
remainder.  Errors carry the source state at the failure point, for the
destroy in the handler. -/
def parsePreludeTry (magics : List (List Nat)) (maxJsonBytes : Nat)
    (requirePrelude autoPause : Bool) (src0 : Source) :
    Except (PErr × Source) (ParseResult × Source) :=
  match flowGuard autoPause src0 with
  | .error e => .error (e, src0)
  | .ok sg =>
    let s1 := pauseSource sg
    match readExactly s1 MAGIC_LENGTH with
    | .error e => .error (e, s1)
    | .ok (receivedMagic, s2) =>
      if ¬ magics.any (· = receivedMagic) then
        if requirePrelude then .error (.magicMismatch, s2)
        else .ok (⟨.obj .nil, remainderWithBytes s2 receivedMagic⟩, s2)
      else
        match readExactly s2 LENGTH_BYTES with
        | .error e => .error (e, s2)
        | .ok (lengthBuffer, s3) =>
          match validateJsonLength (readUInt32BE lengthBuffer 0) maxJsonBytes with
          | .error e => .error (e, s3)
          | .ok _ =>
            match readExactly s3 (readUInt32BE lengthBuffer 0) with
            | .error e => .error (e, s3)
            | .ok (jsonBuffer, s4) =>
              match jsonParse jsonBuffer with
              | .error _ => .error (.jsonParse failedParseMsg, s4)
              | .ok parsed =>
                if isPlainObjectB parsed then
                  .ok (⟨parsed, remainderNoBytes s4⟩, s4)
                else .error (.invalidType, s4)

/-- Pull-mode parsePrelude: marker-set normalization outside the try (its
TypeError propagates without touching the source), then the try body; any
error from the body destroys the source with that error before the
rejection is surfaced. -/
def parsePrelude (src : Source) (opts : ParseOpts) :
    Except (PErr × Source) (ParseResult × Source) :=
  match assertMagicList opts.magic with
  | .error e => .error (e, src)
  | .ok magics =>
    match parsePreludeTry magics (opts.maxJsonBytes.getD DEFAULT_MAX_JSON_BYTES)
        opts.requirePrelude opts.autoPause src with
    | .error (e, sErr) => .error (e, destroySource sErr e)
    | .ok r => .ok r

/-- isFramedStream: marker-set normalization, refusal (false) when another
consumer is actively flowing, pause, then a four-byte probe that is never
unshifted back; any read failure resolves to false instead of
rejecting. -/
def isFramedStream (src : Source) (magic : Option (List (List Nat))) :
    Except PErr (Bool × Source) :=
  match assertMagicList magic with
  | .error e => .error e
  | .ok magics =>
    if src.flowing = true ∧ 0 < src.dataListeners then .ok (false, src)
    else
      let s1 := pauseSource src
      match readExactly s1 MAGIC_LENGTH with
      | .error _ => .ok (false, s1)
      | .ok (probe, s2) => .ok (magics.any (· = probe), s2)

theorem readUInt32BE_writeUInt32BE (n : Nat) (h : n < 2 ^ 32) (rest : List Nat) :
    readUInt32BE (writeUInt32BE n ++ rest) 0 = n := by
  simp only [readUInt32BE, writeUInt32BE, List.cons_append, List.nil_append,
    List.getD_cons_zero, List.getD_cons_succ]
  omega

theorem writeUInt32BE_length (n : Nat) : (writeUInt32BE n).length = 4 := rfl

theorem validateFields_cons_ok (k : List Nat) (v : JsValue) (rest : JsObj)
    (h : validateFields (.cons k v rest) = .ok ()) :
    assertSerializable v = .ok () ∧ validateFields rest = .ok () := by
  cases v with
  | str s => exact ⟨rfl, by simpa [validateFields, assertSerializable] using h⟩
  | num n => exact ⟨rfl, by simpa [validateFields, assertSerializable] using h⟩
  | bool b => exact ⟨rfl, by simpa [validateFields, assertSerializable] using h⟩
  | null => exact ⟨rfl, by simpa [validateFields, assertSerializable] using h⟩
  | undef => simp [validateFields] at h
  | exotic => simp [validateFields, assertSerializable] at h
  | arr a =>
    simp only [validateFields, assertSerializable] at h ⊢
    cases hv : assertSerializableArr a with
    | error e => simp [hv] at h
    | ok u =>
      cases u
      rw [hv] at h
      exact ⟨rfl, by simpa using h⟩
  | obj o =>
    simp only [validateFields, assertSerializable] at h ⊢
    cases hv : assertSerializableObj o with
    | error e => simp [hv] at h
    | ok u =>
      cases u
      rw [hv] at h
      exact ⟨rfl, by simpa using h⟩

theorem validateFields_ok_serializable (o : JsObj) (h : validateFields o = .ok ()) :
    serializableObj o = true := by
  induction o using JsObj.recAux with
  | nil => rfl
  | cons k v rest ih =>
    obtain ⟨h1, h2⟩ := validateFields_cons_ok k v rest h
    have hs := (serializable_iff_val v).mp h1
    simp [serializableObj, hs, ih h2]

theorem validateHeaders_obj_err (fields : JsObj) (hbad : serializableObj fields = false) :
    ∃ e, validateHeaders (.obj fields) = .error e := by
  unfold validateHeaders validatePrelude
  cases hk : JsObj.hasKey fields keyV with
  | true => exact ⟨.typeError "prelude must not declare the reserved key v", by simp [hk]⟩
  | false =>
    cases hv : validateFields fields with
    | error e => exact ⟨e, by simp [hk, hv]⟩
    | ok u =>
      cases u
      exact absurd (validateFields_ok_serializable fields hv) (by simp [hbad])

/-- Claim C4: getPreludeSize performs the same validation as encodePrelude
and, whenever encoding succeeds, returns exactly the length of the encoded
buffer; both functions fail on exactly the same inputs, with the same
error. -/
theorem getPreludeSize_eq_encodePrelude_length (headers : JsValue) (opts : EncodeOpts) :
    getPreludeSize headers opts = (encodePrelude headers opts).map List.length := by
  simp only [getPreludeSize, encodePrelude]
  cases h1 : assertMagicList (opts.magic.map fun m => [m]) with
  | error e => rfl
  | ok magics =>
    cases magics with
    | nil => rfl
    | cons magic rest =>
      cases h2 : validateHeaders headers with
      | error e => rfl
      | ok u =>
        cases u
        cases h3 : validateJsonLength
            (stringifyVal (spreadV (opts.version.getD 1) headers)).length
            (opts.maxJsonBytes.getD DEFAULT_MAX_JSON_BYTES) with
        | error e => rfl
        | ok u =>
          cases u
          simp [Except.map, makePreludeBuffer, writeUInt32BE, LENGTH_BYTES,
            List.length_append, List.length_cons]
          omega

/-- Claim C5 counterexample: a header containing the non-finite numbers NaN
or Infinity is accepted by encodePrelude and frameStream (the source only
checks typeof, and JSON.stringify silently renders non-finite numbers as
null), contradicting the claim that such headers fail at encode time. -/
theorem encodePrelude_accepts_nonfinite :
    (encodePrelude (.obj (.cons [120] (.num .nan) .nil)) {}).isOk = true ∧
    (frameStream [1, 2] (.obj (.cons [120] (.num .inf) .nil)) {}).isOk = true :=
  ⟨rfl, rfl⟩

/-- Claim C5 as amended: for every header object containing an
undefined-valued entry or a value that is not JSON-representable as an
object shape (an exotic, function-like value), encodePrelude and
frameStream fail at encode time producing no bytes; non-finite numbers are
not rejected. -/
theorem encodePrelude_rejects_nonserializable (fields : JsObj) (opts : EncodeOpts)
    (fopts : FrameOpts) (src : List Nat) (hbad : serializableObj fields = false) :
    (encodePrelude (.obj fields) opts).isOk = false ∧
    (frameStream src (.obj fields) fopts).isOk = false := by
  obtain ⟨e, he⟩ := validateHeaders_obj_err fields hbad
  constructor
  · unfold encodePrelude
    cases h1 : assertMagicList (opts.magic.map fun m => [m]) with
    | error e2 => rfl
    | ok magics =>
      cases magics with
      | nil => rfl
      | cons m rest => simp [he, Except.isOk, Except.toBool]
  · unfold frameStream
    cases h1 : assertMagicList fopts.magic with
    | error e2 => rfl
    | ok magics =>
      cases magics with
      | nil => rfl
      | cons m rest => simp [he, Except.isOk, Except.toBool]

/-- Witness for the amended claim C5 at a concrete input: a header with an
undefined-valued entry makes both encoders fail. -/
theorem encodePrelude_rejects_nonserializable_witness :
    serializableObj (JsObj.cons [120] .undef .nil) = false ∧
    ((encodePrelude (.obj (JsObj.cons [120] .undef .nil)) {}).isOk = false ∧
      (frameStream [3] (.obj (JsObj.cons [120] .undef .nil)) {}).isOk = false) :=
  ⟨rfl, encodePrelude_rejects_nonserializable (JsObj.cons [120] .undef .nil) {} {} [3] rfl⟩

/-- Claim C6: a buffer whose first four bytes match a configured marker and
whose declared length field is zero makes decodePrelude fail with the
empty-payload parse error; it never returns an empty header for a zero
length. -/
theorem decodePrelude_zero_length_fails (buffer : List Nat) (opts : DecodeOpts)
    (magics : List (List Nat)) (hm : assertMagicList opts.magic = .ok magics)
    (hlen : MAGIC_LENGTH + LENGTH_BYTES ≤ buffer.length)
    (hmag : magics.any (· = buffer.take MAGIC_LENGTH) = true)
    (hzero : readUInt32BE buffer MAGIC_LENGTH = 0) :
    decodePrelude buffer opts = .error (.jsonParse emptyPayloadMsg) := by
  simp only [decodePrelude, hm]
  simp only [decodePreludeCore]
  rw [if_neg (Nat.not_lt.mpr hlen)]
  rw [if_neg (by simp [hmag])]
  rw [hzero]
  simp [validateJsonLength]

theorem natDigitsAux_digits (fuel : Nat) : ∀ (n : Nat), ∀ c ∈ natDigitsAux fuel n, 48 ≤ c ∧ c ≤ 57 := by
  induction fuel with
  | zero => intro n c hc; simp [natDigitsAux] at hc
  | succ fuel ih =>
    intro n c hc
    by_cases h10 : n < 10
    · simp [natDigitsAux, h10] at hc
      omega
    · simp only [natDigitsAux, if_neg h10, List.mem_append] at hc
      rcases hc with hc | hc
      · exact ih _ c hc
      · simp at hc
        omega

theorem natDigitsAux_ne_nil (fuel n : Nat) (h : 1 ≤ fuel) : natDigitsAux fuel n ≠ [] := by
  cases fuel with
  | zero => omega
  | succ fuel =>
    by_cases h10 : n < 10
    · simp [natDigitsAux, h10]
    · simp [natDigitsAux, h10]

theorem natBytes_digits (n : Nat) : ∀ c ∈ natBytes n, 48 ≤ c ∧ c ≤ 57 :=
  natDigitsAux_digits (n + 1) n

theorem natBytes_ne_nil (n : Nat) : natBytes n ≠ [] :=
  natDigitsAux_ne_nil (n + 1) n (by omega)

theorem natBytes_cons (n : Nat) : ∃ c cs, natBytes n = c :: cs ∧ 48 ≤ c ∧ c ≤ 57 := by
  cases hb : natBytes n with
  | nil => exact absurd hb (natBytes_ne_nil n)
  | cons c cs =>
    have := natBytes_digits n c (by rw [hb]; exact List.mem_cons_self c cs)
    exact ⟨c, cs, rfl, this.1, this.2⟩

theorem takeWhile_digits_append (ds rest : List Nat) (hd : ∀ c ∈ ds, isDigit c = true)
    (hr : restNotDigit rest) :
    (ds ++ rest).takeWhile isDigit = ds ∧ (ds ++ rest).dropWhile isDigit = rest := by
  induction ds with
  | nil =>
    cases rest with
    | nil => exact ⟨rfl, rfl⟩
    | cons c r =>
      simp only [restNotDigit] at hr
      simp [List.takeWhile_cons, List.dropWhile_cons, hr]
  | cons d ds ih =>
    have hdd : isDigit d = true := hd d (List.mem_cons_self d ds)
    have := ih (fun c hc => hd c (List.mem_cons_of_mem d hc))
    simp [List.takeWhile_cons, List.dropWhile_cons, hdd, this.1, this.2]

theorem digitsToNat_append_digit (ds : List Nat) (d : Nat) :
    digitsToNat (ds ++ [d]) = digitsToNat ds * 10 + (d - 48) := by
  simp [digitsToNat, List.foldl_append]

theorem digitsToNat_natDigitsAux (fuel : Nat) : ∀ n, n < fuel → digitsToNat (natDigitsAux fuel n) = n := by
  induction fuel with
  | zero => omega
  | succ fuel ih =>
    intro n hn
    by_cases h10 : n < 10
    · simp only [natDigitsAux, if_pos h10]
      simp only [digitsToNat, List.foldl_cons, List.foldl_nil]
      omega
    · have hdiv : n / 10 < fuel := by
        have h1 : n / 10 < n := Nat.div_lt_self (by omega) (by omega)
        omega
      simp only [natDigitsAux, if_neg h10, digitsToNat_append_digit, ih _ hdiv]
      omega

theorem digitsToNat_natBytes (n : Nat) : digitsToNat (natBytes n) = n :=
  digitsToNat_natDigitsAux (n + 1) n (by omega)

theorem parseNatNum_natBytes (n : Nat) (rest : List Nat) (hr : restNotDigit rest) :
    parseNatNum (natBytes n ++ rest) = .ok (n, rest) := by
  have hdig : ∀ c ∈ natBytes n, isDigit c = true := by
    intro c hc
    have := natBytes_digits n c hc
    simp [isDigit]
    omega
  obtain ⟨ht, hdw⟩ := takeWhile_digits_append (natBytes n) rest hdig hr
  simp [parseNatNum, ht, hdw, natBytes_ne_nil n, digitsToNat_natBytes]

theorem hexVal_hexDigit (d : Nat) (h : d < 16) : hexVal (hexDigit d) = some d := by
  unfold hexDigit hexVal
  by_cases h10 : d < 10
  · rw [if_pos h10, if_pos (by omega)]
    congr 1
    omega
  · rw [if_neg h10, if_neg (by omega), if_pos (by omega)]
    congr 1
    omega

theorem parseStr_quote (r : List Nat) : parseStr (34 :: r) = .ok ([], r) := by
  conv_lhs => rw [parseStr.eq_def]
  rfl

theorem parseStr_escQuote (r : List Nat) : parseStr (92 :: 34 :: r) = consStr 34 (parseStr r) := by
  conv_lhs => rw [parseStr.eq_def]
  rfl

theorem parseStr_escBack (r : List Nat) : parseStr (92 :: 92 :: r) = consStr 92 (parseStr r) := by
  conv_lhs => rw [parseStr.eq_def]
  rfl

theorem parseStr_escB (r : List Nat) : parseStr (92 :: 98 :: r) = consStr 8 (parseStr r) := by
  conv_lhs => rw [parseStr.eq_def]
  rfl

theorem parseStr_escT (r : List Nat) : parseStr (92 :: 116 :: r) = consStr 9 (parseStr r) := by
  conv_lhs => rw [parseStr.eq_def]
  rfl

theorem parseStr_escN (r : List Nat) : parseStr (92 :: 110 :: r) = consStr 10 (parseStr r) := by
  conv_lhs => rw [parseStr.eq_def]
  rfl

theorem parseStr_escF (r : List Nat) : parseStr (92 :: 102 :: r) = consStr 12 (parseStr r) := by
  conv_lhs => rw [parseStr.eq_def]
  rfl

theorem parseStr_escR (r : List Nat) : parseStr (92 :: 114 :: r) = consStr 13 (parseStr r) := by
  conv_lhs => rw [parseStr.eq_def]
  rfl

theorem parseStr_lit (c : Nat) (r : List Nat) (h1 : c ≠ 34) (h2 : c ≠ 92) :
    parseStr (c :: r) = consStr c (parseStr r) := by
  conv_lhs => rw [parseStr.eq_def]
  simp only []
  rw [if_neg h1, if_neg h2]

theorem parseStr_escCtl (c : Nat) (hcl : c < 32) (r : List Nat) :
    parseStr (92 :: 117 :: 48 :: 48 :: hexDigit (c / 16) :: hexDigit (c % 16) :: r) =
      consStr c (parseStr r) := by
  have hq : hexVal (hexDigit (c / 16)) = some (c / 16) := hexVal_hexDigit _ (by omega)
  have hm : hexVal (hexDigit (c % 16)) = some (c % 16) := hexVal_hexDigit _ (by omega)
  have hval : ((0 * 16 + 0) * 16 + c / 16) * 16 + c % 16 = c := by omega
  have hlt : c < 128 := by omega
  conv_lhs => rw [parseStr.eq_def]
  simp only []
  rw [hq, hm]
  simp only [show hexVal 48 = some 0 from by decide]
  rw [hval]
  simp [hlt]

theorem parseStr_escBytes (s : List Nat) : ∀ rest : List Nat,
    parseStr (escBytes s ++ 34 :: rest) = .ok (s, rest) := by
  induction s with
  | nil =>
    intro rest
    simp [escBytes, parseStr_quote]
  | cons c r ih =>
    intro rest
    by_cases h34 : c = 34
    · subst h34
      simp only [escBytes, List.cons_append, List.nil_append]
      norm_num
      rw [parseStr_escQuote, ih rest]
      rfl
    · by_cases h92 : c = 92
      · subst h92
        simp only [escBytes, List.cons_append, List.nil_append]
        norm_num
        rw [parseStr_escBack, ih rest]
        rfl
      · by_cases h8 : c = 8
        · subst h8
          simp only [escBytes, List.cons_append, List.nil_append]
          norm_num
          rw [parseStr_escB, ih rest]
          rfl
        · by_cases h9 : c = 9
          · subst h9
            simp only [escBytes, List.cons_append, List.nil_append]
            norm_num
            rw [parseStr_escT, ih rest]
            rfl
          · by_cases h10 : c = 10
            · subst h10
              simp only [escBytes, List.cons_append, List.nil_append]
              norm_num
              rw [parseStr_escN, ih rest]
              rfl
            · by_cases h12 : c = 12
              · subst h12
                simp only [escBytes, List.cons_append, List.nil_append]
                norm_num
                rw [parseStr_escF, ih rest]
                rfl
              · by_cases h13 : c = 13
                · subst h13
                  simp only [escBytes, List.cons_append, List.nil_append]
                  norm_num
                  rw [parseStr_escR, ih rest]
                  rfl
                · by_cases h32 : c < 32
                  · simp only [escBytes, if_neg h34, if_neg h92, if_neg h8, if_neg h9,
                      if_neg h10, if_neg h12, if_neg h13, if_pos h32, List.cons_append,
                      List.nil_append]
                    rw [parseStr_escCtl c h32, ih rest]
                    rfl
                  · simp only [escBytes, if_neg h34, if_neg h92, if_neg h8, if_neg h9,
                      if_neg h10, if_neg h12, if_neg h13, if_neg h32, List.cons_append,
                      List.nil_append]
                    rw [parseStr_lit c _ h34 h92, ih rest]
                    rfl

theorem parseF_null (fuel : Nat) (r : List Nat) :
    parseF (fuel + 1) .value (110 :: 117 :: 108 :: 108 :: r) = .ok (.null, r) := by
  conv_lhs => rw [parseF.eq_def]
  rfl

theorem parseF_true (fuel : Nat) (r : List Nat) :
    parseF (fuel + 1) .value (116 :: 114 :: 117 :: 101 :: r) = .ok (.bool true, r) := by
  conv_lhs => rw [parseF.eq_def]
  rfl

theorem parseF_false (fuel : Nat) (r : List Nat) :
    parseF (fuel + 1) .value (102 :: 97 :: 108 :: 115 :: 101 :: r) = .ok (.bool false, r) := by
  conv_lhs => rw [parseF.eq_def]
  rfl

theorem parseF_str (fuel : Nat) (r : List Nat) (s r2 : List Nat)
    (h : parseStr r = .ok (s, r2)) :
    parseF (fuel + 1) .value (34 :: r) = .ok (.str s, r2) := by
  conv_lhs => rw [parseF.eq_def]
  simp only []
  rw [h]
  rfl

theorem parseF_arrNil (fuel : Nat) (r : List Nat) :
    parseF (fuel + 1) .value (91 :: 93 :: r) = .ok (.arr .nil, r) := by
  conv_lhs => rw [parseF.eq_def]
  rfl

theorem parseF_arrCons (fuel : Nat) (c2 : Nat) (r2 : List Nat) (h : c2 ≠ 93) :
    parseF (fuel + 1) .value (91 :: c2 :: r2) = parseF fuel .elems (c2 :: r2) := by
  conv_lhs => rw [parseF.eq_def]
  simp only []
  rw [if_neg h]
  rfl

theorem parseF_objNil (fuel : Nat) (r : List Nat) :
    parseF (fuel + 1) .value (123 :: 125 :: r) = .ok (.obj .nil, r) := by
  conv_lhs => rw [parseF.eq_def]
  rfl

theorem parseF_objCons (fuel : Nat) (c2 : Nat) (r2 : List Nat) (h : c2 ≠ 125) :
    parseF (fuel + 1) .value (123 :: c2 :: r2) = parseF fuel .members (c2 :: r2) := by
  conv_lhs => rw [parseF.eq_def]
  simp only []
  rw [if_neg h]
  rfl

theorem parseF_neg (fuel : Nat) (r r2 : List Nat) (n : Nat)
    (h : parseNatNum r = .ok (n, r2)) :
    parseF (fuel + 1) .value (45 :: r) = .ok (.num (.int (-(n : Int))), r2) := by
  conv_lhs => rw [parseF.eq_def]
  simp only []
  rw [h]
  rfl

theorem parseF_digit (fuel : Nat) (c : Nat) (r r2 : List Nat) (n : Nat)
    (h48 : 48 ≤ c) (h57 : c ≤ 57) (h : parseNatNum (c :: r) = .ok (n, r2)) :
    parseF (fuel + 1) .value (c :: r) = .ok (.num (.int (n : Int)), r2) := by
  conv_lhs => rw [parseF.eq_def]
  simp only []
  rw [if_neg (by omega), if_neg (by omega), if_neg (by omega), if_neg (by omega),
    if_neg (by omega), if_neg (by omega), if_neg (by omega),
    if_pos (show isDigit c = true by simp [isDigit]; omega), h]
  rfl

theorem parseF_elemsLast (fuel : Nat) (input : List Nat) (v : JsValue) (r2 : List Nat)
    (h : parseF fuel .value input = .ok (v, 93 :: r2)) :
    parseF (fuel + 1) .elems input = .ok (.arr (.cons v .nil), r2) := by
  conv_lhs => rw [parseF.eq_def]
  simp only []
  rw [h]
  rfl

theorem parseF_elemsCons (fuel : Nat) (input : List Nat) (v : JsValue) (r2 : List Nat)
    (rest : JsArr) (r3 : List Nat)
    (h1 : parseF fuel .value input = .ok (v, 44 :: r2))
    (h2 : parseF fuel .elems r2 = .ok (.arr rest, r3)) :
    parseF (fuel + 1) .elems input = .ok (.arr (.cons v rest), r3) := by
  conv_lhs => rw [parseF.eq_def]
  simp only []
  rw [h1]
  simp only []
  rw [h2]
  rfl

theorem parseF_membersLast (fuel : Nat) (r : List Nat) (k : List Nat) (v : JsValue)
    (r2 r4 : List Nat)
    (h1 : parseStr r = .ok (k, 58 :: r2))
    (h2 : parseF fuel .value r2 = .ok (v, 125 :: r4)) :
    parseF (fuel + 1) .members (34 :: r) = .ok (.obj (.cons k v .nil), r4) := by
  conv_lhs => rw [parseF.eq_def]
  simp only []
  rw [h1]
  simp only []
  rw [h2]
  rfl

theorem parseF_membersCons (fuel : Nat) (r : List Nat) (k : List Nat) (v : JsValue)
    (r2 r4 : List Nat) (rest : JsObj) (r5 : List Nat)
    (h1 : parseStr r = .ok (k, 58 :: r2))
    (h2 : parseF fuel .value r2 = .ok (v, 44 :: r4))
    (h3 : parseF fuel .members r4 = .ok (.obj rest, r5)) :
    parseF (fuel + 1) .members (34 :: r) = .ok (.obj (.cons k v rest), r5) := by
  conv_lhs => rw [parseF.eq_def]
  simp only []
  rw [h1]
  simp only []
  rw [h2]
  simp only []
  rw [h3]
  rfl

theorem wVal_pos (v : JsValue) : 1 ≤ wVal v := by
  cases v <;> simp [wVal]

theorem rt_not_skippable (v : JsValue) (h : rtVal v = true) : skippable v = false := by
  cases v with
  | undef => simp [rtVal] at h
  | exotic => simp [rtVal] at h
  | str s => rfl
  | num n => rfl
  | bool b => rfl
  | null => rfl
  | arr a => rfl
  | obj o => rfl

theorem stringifyVal_head (v : JsValue) :
    ∃ c cs, stringifyVal v = c :: cs ∧ c ≠ 93 ∧ c ≠ 125 := by
  cases v with
  | str s => exact ⟨34, escBytes s ++ [34], by simp [stringifyVal, strLit], by omega, by omega⟩
  | num n =>
    cases n with
    | int i =>
      by_cases hi : i < 0
      · exact ⟨45, natBytes i.natAbs, by simp [stringifyVal, intBytes, hi], by omega, by omega⟩
      · obtain ⟨c, cs, heq, h48, h57⟩ := natBytes_cons i.natAbs
        exact ⟨c, cs, by simp [stringifyVal, intBytes, hi, heq], by omega, by omega⟩
    | nan => exact ⟨110, [117, 108, 108], by simp [stringifyVal], by omega, by omega⟩
    | inf => exact ⟨110, [117, 108, 108], by simp [stringifyVal], by omega, by omega⟩
    | negInf => exact ⟨110, [117, 108, 108], by simp [stringifyVal], by omega, by omega⟩
  | bool b =>
    cases b with
    | true => exact ⟨116, [114, 117, 101], by simp [stringifyVal], by omega, by omega⟩
    | false => exact ⟨102, [97, 108, 115, 101], by simp [stringifyVal], by omega, by omega⟩
  | null => exact ⟨110, [117, 108, 108], by simp [stringifyVal], by omega, by omega⟩
  | undef => exact ⟨110, [117, 108, 108], by simp [stringifyVal], by omega, by omega⟩
  | exotic => exact ⟨110, [117, 108, 108], by simp [stringifyVal], by omega, by omega⟩
  | arr a => exact ⟨91, stringifyArr a ++ [93], by simp [stringifyVal], by omega, by omega⟩
  | obj o => exact ⟨123, stringifyObj o ++ [125], by simp [stringifyVal], by omega, by omega⟩

theorem stringifyArr_cons_ex (v : JsValue) (a : JsArr) :
    ∃ t, stringifyArr (.cons v a) = stringifyVal v ++ t := by
  cases a with
  | nil => exact ⟨[], by simp [stringifyArr]⟩
  | cons w rest => exact ⟨44 :: stringifyArr (.cons w rest), by simp [stringifyArr]⟩

theorem stringifyObj_cons_nil (k : List Nat) (v : JsValue) (hs : skippable v = false) :
    stringifyObj (.cons k v .nil) = strLit k ++ 58 :: stringifyVal v := by
  simp [stringifyObj, hs, hasEmittable]

theorem stringifyObj_cons_cons (k : List Nat) (v : JsValue) (k2 : List Nat) (v2 : JsValue)
    (rest : JsObj) (hs : skippable v = false) (hs2 : skippable v2 = false) :
    stringifyObj (.cons k v (.cons k2 v2 rest)) =
      (strLit k ++ 58 :: stringifyVal v) ++ 44 :: stringifyObj (.cons k2 v2 rest) := by
  simp [stringifyObj, hs, hasEmittable, hs2]

theorem stringifyObj_cons_head (k : List Nat) (v : JsValue) (rest : JsObj)
    (hs : skippable v = false) :
    ∃ t, stringifyObj (.cons k v rest) = 34 :: t := by
  cases he : hasEmittable rest with
  | false =>
    refine ⟨escBytes k ++ ([34] ++ 58 :: stringifyVal v), ?_⟩
    simp [stringifyObj, hs, he, strLit]
  | true =>
    refine ⟨escBytes k ++ ([34] ++ 58 :: stringifyVal v) ++ 44 :: stringifyObj rest, ?_⟩
    simp [stringifyObj, hs, he, strLit]

theorem restNotDigit_cons (c : Nat) (x : List Nat) (h : isDigit c = false) :
    restNotDigit (c :: x) := h

mutual
/-- Proof-valued definition: the parser-fuel weight of a round-trippable
value is bounded by the length of its serialization. -/
def wVal_le_stringify : ∀ v : JsValue, rtVal v = true → wVal v ≤ (stringifyVal v).length
  | .str s, _ => by
    simp [wVal, stringifyVal, strLit]
  | .num (.int i), _ => by
    by_cases hi : i < 0
    · simp [wVal, stringifyVal, intBytes, hi]
    · have h := natBytes_ne_nil i.natAbs
      have : 1 ≤ (natBytes i.natAbs).length := by
        cases hb : natBytes i.natAbs with
        | nil => exact absurd hb h
        | cons c cs => simp
      simp only [wVal, stringifyVal, intBytes, if_neg hi]
      omega
  | .num .nan, h => by simp [rtVal] at h
  | .num .inf, h => by simp [rtVal] at h
  | .num .negInf, h => by simp [rtVal] at h
  | .bool true, _ => by simp [wVal, stringifyVal]
  | .bool false, _ => by simp [wVal, stringifyVal]
  | .null, _ => by simp [wVal, stringifyVal]
  | .undef, h => by simp [rtVal] at h
  | .exotic, h => by simp [rtVal] at h
  | .arr a, h => by
    have ha := wArr_le_stringify a (by simpa [rtVal] using h)
    simp only [wVal, stringifyVal, List.length_cons, List.length_append]
    simp at ha ⊢
    omega
  | .obj o, h => by
    have ho := wObj_le_stringify o (by simpa [rtVal] using h)
    simp only [wVal, stringifyVal, List.length_cons, List.length_append]
    simp at ho ⊢
    omega
/-- Weight bound for array element lists. -/
def wArr_le_stringify : ∀ a : JsArr, rtArr a = true → wArr a ≤ (stringifyArr a).length + 1
  | .nil, _ => by simp [wArr, stringifyArr]
  | .cons v .nil, h => by
    have hv := wVal_le_stringify v (by simp [rtArr] at h; exact h)
    simp only [wArr, wArr.eq_1, stringifyArr]
    simp [wArr]
    omega
  | .cons v (.cons w r), h => by
    have hrt1 : rtVal v = true := by simp [rtArr] at h; exact h.1
    have hrt2 : rtArr (.cons w r) = true := by
      simp [rtArr] at h
      simp [rtArr, h.2.1, h.2.2]
    have hv := wVal_le_stringify v hrt1
    have hr := wArr_le_stringify (.cons w r) hrt2
    simp only [wArr] at hr ⊢
    simp only [stringifyArr, List.length_append, List.length_cons]
    omega
/-- Weight bound for object member lists. -/
def wObj_le_stringify : ∀ o : JsObj, rtObj o = true → wObj o ≤ (stringifyObj o).length + 1
  | .nil, _ => by simp [wObj, stringifyObj]
  | .cons k v .nil, h => by
    have hrt : rtVal v = true := by simp [rtObj] at h; exact h
    have hv := wVal_le_stringify v hrt
    rw [stringifyObj_cons_nil k v (rt_not_skippable v hrt)]
    simp only [wObj, List.length_append, List.length_cons, strLit]
    simp [wObj]
    omega
  | .cons k v (.cons k2 v2 r), h => by
    have hrt1 : rtVal v = true := by simp [rtObj] at h; exact h.1
    have hrt2 : rtObj (.cons k2 v2 r) = true := by
      simp [rtObj] at h
      simp [rtObj, h.2.1, h.2.2]
    have hrtv2 : rtVal v2 = true := by simp [rtObj] at hrt2; exact hrt2.1
    have hv := wVal_le_stringify v hrt1
    have hr := wObj_le_stringify (.cons k2 v2 r) hrt2
    rw [stringifyObj_cons_cons k v k2 v2 r (rt_not_skippable v hrt1) (rt_not_skippable v2 hrtv2)]
    simp only [wObj] at hr ⊢
    simp only [List.length_append, List.length_cons, strLit]
    omega
end

theorem parseF_stringify : ∀ fuel : Nat,
    (∀ v rest, rtVal v = true → wVal v ≤ fuel → restNotDigit rest →
      parseF fuel .value (stringifyVal v ++ rest) = .ok (v, rest)) ∧
    (∀ a rest, a ≠ JsArr.nil → rtArr a = true → wArr a ≤ fuel →
      parseF fuel .elems (stringifyArr a ++ 93 :: rest) = .ok (.arr a, rest)) ∧
    (∀ o rest, o ≠ JsObj.nil → rtObj o = true → wObj o ≤ fuel →
      parseF fuel .members (stringifyObj o ++ 125 :: rest) = .ok (.obj o, rest)) := by
  intro fuel
  induction fuel with
  | zero =>
    refine ⟨?_, ?_, ?_⟩
    · intro v rest hrt hw hrest
      exact absurd hw (by have := wVal_pos v; omega)
    · intro a rest hne hrt hw
      cases a with
      | nil => exact absurd rfl hne
      | cons v r =>
        exfalso
        have := wVal_pos v
        simp only [wArr] at hw
        omega
    · intro o rest hne hrt hw
      cases o with
      | nil => exact absurd rfl hne
      | cons k v r =>
        exfalso
        have := wVal_pos v
        simp only [wObj] at hw
        omega
  | succ fuel ih =>
    obtain ⟨ihv, ihe, ihm⟩ := ih
    refine ⟨?_, ?_, ?_⟩
    · intro v rest hrt hw hrest
      cases v with
      | str s =>
        have h := parseStr_escBytes s rest
        have hb : stringifyVal (.str s) ++ rest = 34 :: (escBytes s ++ 34 :: rest) := by
          simp [stringifyVal, strLit]
        rw [hb, parseF_str fuel _ s rest h]
      | num n =>
        cases n with
        | int i =>
          by_cases hi : i < 0
          · have hb : stringifyVal (.num (.int i)) ++ rest = 45 :: (natBytes i.natAbs ++ rest) := by
              simp [stringifyVal, intBytes, hi]
            rw [hb, parseF_neg fuel _ rest i.natAbs (parseNatNum_natBytes _ rest hrest)]
            have hcast : (-(i.natAbs : Int)) = i := by omega
            rw [hcast]
          · obtain ⟨c, cs, heq, h48, h57⟩ := natBytes_cons i.natAbs
            have hb : stringifyVal (.num (.int i)) ++ rest = c :: (cs ++ rest) := by
              simp [stringifyVal, intBytes, hi, heq]
            have hpn : parseNatNum (c :: (cs ++ rest)) = .ok (i.natAbs, rest) := by
              have h := parseNatNum_natBytes i.natAbs rest hrest
              rwa [heq, List.cons_append] at h
            rw [hb, parseF_digit fuel c _ rest i.natAbs h48 h57 hpn]
            have hcast : ((i.natAbs : Int)) = i := by omega
            rw [hcast]
        | nan => simp [rtVal] at hrt
        | inf => simp [rtVal] at hrt
        | negInf => simp [rtVal] at hrt
      | bool b =>
        cases b with
        | true =>
          have hb : stringifyVal (.bool true) ++ rest = 116 :: 114 :: 117 :: 101 :: rest := by
            simp [stringifyVal]
          rw [hb, parseF_true]
        | false =>
          have hb : stringifyVal (.bool false) ++ rest = 102 :: 97 :: 108 :: 115 :: 101 :: rest := by
            simp [stringifyVal]
          rw [hb, parseF_false]
      | null =>
        have hb : stringifyVal .null ++ rest = 110 :: 117 :: 108 :: 108 :: rest := by
          simp [stringifyVal]
        rw [hb, parseF_null]
      | undef => simp [rtVal] at hrt
      | exotic => simp [rtVal] at hrt
      | arr a =>
        cases a with
        | nil =>
          have hb : stringifyVal (.arr .nil) ++ rest = 91 :: 93 :: rest := by
            simp [stringifyVal, stringifyArr]
          rw [hb, parseF_arrNil]
        | cons v2 a2 =>
          have hrtA : rtArr (.cons v2 a2) = true := by simpa [rtVal] using hrt
          have hwA : wArr (.cons v2 a2) ≤ fuel := by
            simp only [wVal] at hw
            omega
          obtain ⟨t, ht⟩ := stringifyArr_cons_ex v2 a2
          obtain ⟨c, cs, hval, h93, _⟩ := stringifyVal_head v2
          have harr : stringifyArr (.cons v2 a2) = c :: (cs ++ t) := by
            rw [ht, hval]
            simp
          have hinput : stringifyVal (.arr (.cons v2 a2)) ++ rest =
              91 :: c :: (cs ++ (t ++ 93 :: rest)) := by
            simp [stringifyVal, harr]
          rw [hinput, parseF_arrCons fuel c _ h93]
          have hback : c :: (cs ++ (t ++ 93 :: rest)) = stringifyArr (.cons v2 a2) ++ 93 :: rest := by
            rw [harr]
            simp
          rw [hback]
          exact ihe (.cons v2 a2) rest (by simp) hrtA hwA
      | obj o =>
        cases o with
        | nil =>
          have hb : stringifyVal (.obj .nil) ++ rest = 123 :: 125 :: rest := by
            simp [stringifyVal, stringifyObj]
          rw [hb, parseF_objNil]
        | cons k v2 o2 =>
          have hrtO : rtObj (.cons k v2 o2) = true := by simpa [rtVal] using hrt
          have hrtv2 : rtVal v2 = true := by
            simp [rtObj] at hrtO
            exact hrtO.1
          have hwO : wObj (.cons k v2 o2) ≤ fuel := by
            simp only [wVal] at hw
            omega
          have hs : skippable v2 = false := rt_not_skippable v2 hrtv2
          obtain ⟨t, hobj⟩ := stringifyObj_cons_head k v2 o2 hs
          have hinput : stringifyVal (.obj (.cons k v2 o2)) ++ rest =
              123 :: 34 :: (t ++ 125 :: rest) := by
            simp [stringifyVal, hobj]
          rw [hinput, parseF_objCons fuel 34 _ (by omega)]
          have hback : (34 : Nat) :: (t ++ 125 :: rest) =
              stringifyObj (.cons k v2 o2) ++ 125 :: rest := by
            rw [hobj]
            simp
          rw [hback]
          exact ihm (.cons k v2 o2) rest (by simp) hrtO hwO
    · intro a rest hne hrt hw
      cases a with
      | nil => exact absurd rfl hne
      | cons v a2 =>
        have hrtv : rtVal v = true := by
          simp [rtArr] at hrt
          exact hrt.1
        have hrta2 : rtArr a2 = true := by
          simp [rtArr] at hrt
          exact hrt.2
        cases a2 with
        | nil =>
          have hv := ihv v (93 :: rest) hrtv
            (by simp only [wArr] at hw; omega)
            (restNotDigit_cons 93 rest (by decide))
          have hb : stringifyArr (.cons v .nil) ++ 93 :: rest = stringifyVal v ++ 93 :: rest := by
            simp [stringifyArr]
          rw [hb]
          exact parseF_elemsLast fuel _ v rest hv
        | cons w a3 =>
          have hwv : wVal v ≤ fuel := by
            simp only [wArr] at hw
            omega
          have hwa : wArr (.cons w a3) ≤ fuel := by
            simp only [wArr] at hw ⊢
            omega
          have hv := ihv v (44 :: (stringifyArr (.cons w a3) ++ 93 :: rest)) hrtv hwv
            (restNotDigit_cons 44 _ (by decide))
          have htail := ihe (.cons w a3) rest (by simp) hrta2 hwa
          have hb : stringifyArr (.cons v (.cons w a3)) ++ 93 :: rest =
              stringifyVal v ++ (44 :: (stringifyArr (.cons w a3) ++ 93 :: rest)) := by
            simp [stringifyArr]
          rw [hb]
          exact parseF_elemsCons fuel _ v _ (.cons w a3) rest hv htail
    · intro o rest hne hrt hw
      cases o with
      | nil => exact absurd rfl hne
      | cons k v o2 =>
        have hrtv : rtVal v = true := by
          simp [rtObj] at hrt
          exact hrt.1
        have hrto2 : rtObj o2 = true := by
          simp [rtObj] at hrt
          exact hrt.2
        have hs : skippable v = false := rt_not_skippable v hrtv
        cases o2 with
        | nil =>
          have hwv : wVal v ≤ fuel := by
            simp only [wObj] at hw
            omega
          have hv := ihv v (125 :: rest) hrtv hwv (restNotDigit_cons 125 rest (by decide))
          have hkey := parseStr_escBytes k (58 :: (stringifyVal v ++ 125 :: rest))
          have hform : stringifyObj (.cons k v .nil) ++ 125 :: rest =
              34 :: (escBytes k ++ 34 :: (58 :: (stringifyVal v ++ 125 :: rest))) := by
            rw [stringifyObj_cons_nil k v hs]
            simp [strLit]
          rw [hform]
          exact parseF_membersLast fuel _ k v _ rest hkey hv
        | cons k2 v2 o3 =>
          have hrtv2 : rtVal v2 = true := by
            simp [rtObj] at hrto2
            exact hrto2.1
          have hs2 : skippable v2 = false := rt_not_skippable v2 hrtv2
          have hwv : wVal v ≤ fuel := by
            simp only [wObj] at hw
            omega
          have hwo : wObj (.cons k2 v2 o3) ≤ fuel := by
            simp only [wObj] at hw ⊢
            omega
          have htail := ihm (.cons k2 v2 o3) rest (by simp) hrto2 hwo
          have hv := ihv v (44 :: (stringifyObj (.cons k2 v2 o3) ++ 125 :: rest)) hrtv hwv
            (restNotDigit_cons 44 _ (by decide))
          have hkey := parseStr_escBytes k
            (58 :: (stringifyVal v ++ 44 :: (stringifyObj (.cons k2 v2 o3) ++ 125 :: rest)))
          have hform : stringifyObj (.cons k v (.cons k2 v2 o3)) ++ 125 :: rest =
              34 :: (escBytes k ++ 34 ::
                (58 :: (stringifyVal v ++ 44 :: (stringifyObj (.cons k2 v2 o3) ++ 125 :: rest)))) := by
            rw [stringifyObj_cons_cons k v k2 v2 o3 hs hs2]
            simp [strLit]
          rw [hform]
          exact parseF_membersCons fuel _ k v _ _ (.cons k2 v2 o3) rest hkey hv htail

theorem jsonParse_stringifyVal (v : JsValue) (hrt : rtVal v = true) :
    jsonParse (stringifyVal v) = .ok v := by
  have hw : wVal v ≤ (stringifyVal v).length + 1 :=
    le_trans (wVal_le_stringify v hrt) (by omega)
  have h := (parseF_stringify ((stringifyVal v).length + 1)).1 v [] hrt hw trivial
  rw [List.append_nil] at h
  unfold jsonParse
  rw [h]

theorem JsObj.append_nil (o : JsObj) : o.append .nil = o := by
  induction o using JsObj.recAux with
  | nil => rfl
  | cons k v rest ih => simp [JsObj.append, ih]

theorem JsObj.append_assoc (a b c : JsObj) : (a.append b).append c = a.append (b.append c) := by
  induction a using JsObj.recAux with
  | nil => rfl
  | cons k v rest ih => simp [JsObj.append, ih]

theorem JsObj.hasKey_append (a b : JsObj) (k : List Nat) :
    (a.append b).hasKey k = (a.hasKey k || b.hasKey k) := by
  induction a using JsObj.recAux with
  | nil => simp [JsObj.append, JsObj.hasKey]
  | cons k2 v rest ih => simp [JsObj.append, JsObj.hasKey, ih, Bool.or_assoc]

theorem JsObj.set_fresh (o : JsObj) (k : List Nat) (v : JsValue) (h : o.hasKey k = false) :
    o.set k v = o.append (.cons k v .nil) := by
  induction o using JsObj.recAux with
  | nil => rfl
  | cons k2 w rest ih =>
    simp only [JsObj.hasKey, Bool.or_eq_false_iff] at h
    have hne : ¬ k2 = k := by
      intro he
      rw [he] at h
      simp at h
    simp [JsObj.set, JsObj.append, hne, ih h.2]

theorem JsObj.mem_keys_hasKey (o : JsObj) (k : List Nat) (h : k ∈ o.keys) :
    o.hasKey k = true := by
  induction o using JsObj.recAux with
  | nil => simp [JsObj.keys] at h
  | cons k2 v rest ih =>
    simp only [JsObj.keys, List.mem_cons] at h
    rcases h with h | h
    · simp [JsObj.hasKey, h]
    · simp [JsObj.hasKey, ih h]

theorem JsObj.spread_append (add : JsObj) : ∀ base : JsObj,
    (∀ k ∈ add.keys, base.hasKey k = false) → add.keys.Nodup →
    base.spread add = base.append add := by
  induction add using JsObj.recAux with
  | nil =>
    intro base h hnd
    simp [JsObj.spread, JsObj.append_nil]
  | cons k v rest ih =>
    intro base h hnd
    have hk : base.hasKey k = false := h k (by simp [JsObj.keys])
    have hset := JsObj.set_fresh base k v hk
    simp only [JsObj.spread, hset]
    have hnd2 : rest.keys.Nodup := by
      simp only [JsObj.keys, List.nodup_cons] at hnd
      exact hnd.2
    have hnk : k ∉ rest.keys := by
      simp only [JsObj.keys, List.nodup_cons] at hnd
      exact hnd.1
    have h2 : ∀ k2 ∈ rest.keys, (base.append (.cons k v .nil)).hasKey k2 = false := by
      intro k2 hk2
      rw [JsObj.hasKey_append]
      have hb : base.hasKey k2 = false := h k2 (by simp [JsObj.keys, hk2])
      have hne : ¬ k = k2 := by
        intro he
        exact hnk (he ▸ hk2)
      simp [JsObj.hasKey, hb, hne]
    rw [ih (base.append (.cons k v .nil)) h2 hnd2, JsObj.append_assoc]
    rfl

theorem spreadV_eq (version : Int) (fields : JsObj) (hnk : fields.hasKey keyV = false)
    (hnd : fields.keys.Nodup) :
    spreadV version (.obj fields) = .obj (.cons keyV (.num (.int version)) fields) := by
  unfold spreadV
  have h : ∀ k ∈ fields.keys, (JsObj.cons keyV (.num (.int version)) .nil).hasKey k = false := by
    intro k hk
    have hne : ¬ keyV = k := by
      intro he
      rw [← he] at hk
      have hcontra := JsObj.mem_keys_hasKey fields keyV hk
      rw [hcontra] at hnk
      exact absurd hnk (by simp)
    simp [JsObj.hasKey, hne]
  rw [show (match JsValue.obj fields with | JsValue.obj o => o | _ => JsObj.nil) = fields from rfl]
  rw [JsObj.spread_append fields _ h hnd]
  rfl

theorem assertMagic_ok (m b : List Nat) (h : assertMagic m = .ok b) :
    b = m ∧ b.length = MAGIC_LENGTH := by
  unfold assertMagic at h
  by_cases hl : m.length = MAGIC_LENGTH
  · rw [if_pos hl] at h
    simp at h
    subst h
    exact ⟨rfl, hl⟩
  · rw [if_neg hl] at h
    simp at h

theorem assertMagicEach_ok (ms : List (List Nat)) : ∀ bs,
    assertMagicEach ms = .ok bs → bs = ms ∧ ∀ b ∈ bs, b.length = MAGIC_LENGTH := by
  induction ms with
  | nil =>
    intro bs h
    simp [assertMagicEach] at h
    subst h
    simp
  | cons m rest ih =>
    intro bs h
    simp only [assertMagicEach] at h
    cases hm : assertMagic m with
    | error e => rw [hm] at h; simp at h
    | ok b =>
      rw [hm] at h
      cases hr : assertMagicEach rest with
      | error e => rw [hr] at h; simp at h
      | ok bs2 =>
        rw [hr] at h
        simp only [Except.ok.injEq] at h
        obtain ⟨h1, h2⟩ := ih bs2 hr
        obtain ⟨hb1, hb2⟩ := assertMagic_ok m b hm
        subst h
        constructor
        · rw [hb1, h1]
        · intro x hx
          rcases List.mem_cons.mp hx with hx | hx
          · rw [hx]; exact hb2
          · exact h2 x hx

theorem validateJsonLength_ok (l m : Nat) (h : validateJsonLength l m = .ok ()) :
    l ≤ m ∧ 1 ≤ l := by
  unfold validateJsonLength at h
  by_cases h1 : l > m
  · rw [if_pos h1] at h
    simp at h
  · rw [if_neg h1] at h
    by_cases h2 : l = 0
    · rw [if_pos h2] at h
      simp at h
    · omega

theorem readUInt32BE_skip (pre l : List Nat) (h : pre.length = 4) :
    readUInt32BE (pre ++ l) 4 = readUInt32BE l 0 := by
  unfold readUInt32BE
  rw [List.getD_append_right _ _ _ _ (by omega), List.getD_append_right _ _ _ _ (by omega),
    List.getD_append_right _ _ _ _ (by omega), List.getD_append_right _ _ _ _ (by omega)]
  simp [h]

theorem decodePreludeCore_frame (magic J body : List Nat) (magics : List (List Nat))
    (maxJ : Nat) (P : JsValue)
    (hml : magic.length = 4)
    (hmem : magic ∈ magics)
    (hval : validateJsonLength J.length maxJ = .ok ())
    (hJ32 : J.length < 2 ^ 32)
    (hparse : jsonParse J = .ok P)
    (hplain : isPlainObjectB P = true) :
    decodePreludeCore magics maxJ ((magic ++ writeUInt32BE J.length ++ J) ++ body) =
      .ok (P, 8 + J.length) := by
  have hlen : ((magic ++ writeUInt32BE J.length ++ J) ++ body).length
      = 8 + J.length + body.length := by
    simp [writeUInt32BE, hml]
    omega
  have htake : ((magic ++ writeUInt32BE J.length ++ J) ++ body).take MAGIC_LENGTH = magic := by
    have h4 : MAGIC_LENGTH = magic.length := by simp [MAGIC_LENGTH, hml]
    rw [h4, List.append_assoc, List.append_assoc]
    exact List.take_left magic _
  have hany : magics.any (· = magic) = true := by
    rw [List.any_eq_true]
    exact ⟨magic, hmem, by simp⟩
  have hread : readUInt32BE ((magic ++ writeUInt32BE J.length ++ J) ++ body) MAGIC_LENGTH
      = J.length := by
    rw [show MAGIC_LENGTH = (4 : Nat) from rfl, List.append_assoc, List.append_assoc,
      readUInt32BE_skip magic _ hml]
    exact readUInt32BE_writeUInt32BE J.length hJ32 (J ++ body)
  have hdrop : ((magic ++ writeUInt32BE J.length ++ J) ++ body).drop (MAGIC_LENGTH + LENGTH_BYTES)
      = J ++ body := by
    have h8 : MAGIC_LENGTH + LENGTH_BYTES = (magic ++ writeUInt32BE J.length).length := by
      simp [writeUInt32BE, hml, MAGIC_LENGTH, LENGTH_BYTES]
    rw [h8, List.append_assoc]
    exact List.drop_left _ _
  simp only [decodePreludeCore]
  rw [if_neg (by rw [hlen]; simp only [MAGIC_LENGTH, LENGTH_BYTES]; omega)]
  rw [htake]
  rw [if_neg (by simp [hany])]
  rw [hread, hval]
  rw [if_neg (by rw [hlen]; simp only [MAGIC_LENGTH, LENGTH_BYTES]; omega)]
  rw [hdrop]
  rw [show (J ++ body).take J.length = J from List.take_left J body]
  rw [hparse]
  simp [hplain, MAGIC_LENGTH, LENGTH_BYTES]

/-- Claim C1: round-trip of the frame grammar.  For every valid header
object (a round-trippable plain object with pairwise distinct keys that
does not declare the reserved key v) and every body byte sequence,
decodePrelude applied to the encodePrelude output concatenated with the
body succeeds, returning the header with the version entry v (default 1)
prepended, an offset equal to the prelude length, and the bytes of the
buffer from that offset on equal to the body. -/
theorem decodePrelude_encodePrelude_roundtrip (fields : JsObj) (body : List Nat)
    (opts : EncodeOpts) (frame : List Nat)
    (hrt : rtObj fields = true)
    (hnk : fields.hasKey keyV = false)
    (hnd : fields.keys.Nodup)
    (hmax : opts.maxJsonBytes.getD DEFAULT_MAX_JSON_BYTES < 2 ^ 32)
    (henc : encodePrelude (.obj fields) opts = .ok frame) :
    decodePrelude (frame ++ body) ⟨opts.magic.map fun m => [m], opts.maxJsonBytes⟩ =
      .ok (.obj (.cons keyV (.num (.int (opts.version.getD 1))) fields), frame.length) ∧
    (frame ++ body).drop frame.length = body := by
  refine ⟨?_, List.drop_left frame body⟩
  simp only [encodePrelude] at henc
  cases hm : assertMagicList (opts.magic.map fun m => [m]) with
  | error e => rw [hm] at henc; simp at henc
  | ok magics =>
    rw [hm] at henc
    cases magics with
    | nil => simp at henc
    | cons magic mrest =>
      cases hv : validateHeaders (.obj fields) with
      | error e => rw [hv] at henc; simp at henc
      | ok u =>
        cases u
        rw [hv] at henc
        simp only [spreadV_eq (opts.version.getD 1) fields hnk hnd] at henc
        cases hl : validateJsonLength
            (stringifyVal (.obj (.cons keyV (.num (.int (opts.version.getD 1))) fields))).length
            (opts.maxJsonBytes.getD DEFAULT_MAX_JSON_BYTES) with
        | error e => rw [hl] at henc; simp at henc
        | ok u =>
          cases u
          rw [hl] at henc
          simp only [Except.ok.injEq] at henc
          have hml : magic.length = 4 := by
            unfold assertMagicList at hm
            obtain ⟨h1, h2⟩ := assertMagicEach_ok _ _ hm
            have := h2 magic (List.mem_cons_self magic mrest)
            simpa [MAGIC_LENGTH] using this
          obtain ⟨hL1, hL2⟩ := validateJsonLength_ok _ _ hl
          have hJ32 : (stringifyVal (.obj (.cons keyV (.num (.int (opts.version.getD 1))) fields))).length < 2 ^ 32 := by omega
          have hrtP : rtVal (.obj (.cons keyV (.num (.int (opts.version.getD 1))) fields)) = true := by
            simp [rtVal, rtObj, hrt]
          have hparse := jsonParse_stringifyVal _ hrtP
          have hcore := decodePreludeCore_frame magic _ body (magic :: mrest)
            (opts.maxJsonBytes.getD DEFAULT_MAX_JSON_BYTES) _ hml
            (List.mem_cons_self magic mrest) hl hJ32 hparse rfl
          have hframe : frame = magic ++
              writeUInt32BE (stringifyVal (.obj (.cons keyV (.num (.int (opts.version.getD 1))) fields))).length ++
              stringifyVal (.obj (.cons keyV (.num (.int (opts.version.getD 1))) fields)) := by
            rw [← henc]
            rfl
          have hflen : frame.length =
              8 + (stringifyVal (.obj (.cons keyV (.num (.int (opts.version.getD 1))) fields))).length := by
            rw [hframe]
            simp [writeUInt32BE, hml]
            omega
          simp only [decodePrelude]
          rw [hm]
          rw [hflen, hframe]
          exact hcore

/-- Witness for claim C1 at a concrete input: the header with the single
entry x mapped to the string hi, default options, and a two-byte body. -/
theorem decodePrelude_encodePrelude_roundtrip_witness :
    (rtObj (JsObj.cons [120] (.str [104, 105]) .nil) = true ∧
      (JsObj.cons [120] (.str [104, 105]) .nil).hasKey keyV = false ∧
      (JsObj.cons [120] (.str [104, 105]) .nil).keys.Nodup ∧
      ({} : EncodeOpts).maxJsonBytes.getD DEFAULT_MAX_JSON_BYTES < 2 ^ 32 ∧
      encodePrelude (.obj (JsObj.cons [120] (.str [104, 105]) .nil)) {} =
        .ok [80, 82, 69, 49, 0, 0, 0, 16, 123, 34, 118, 34, 58, 49, 44, 34, 120, 34,
          58, 34, 104, 105, 34, 125]) ∧
    (decodePrelude ([80, 82, 69, 49, 0, 0, 0, 16, 123, 34, 118, 34, 58, 49, 44, 34, 120, 34,
        58, 34, 104, 105, 34, 125] ++ [7, 9]) {} =
      .ok (.obj (.cons keyV (.num (.int 1)) (JsObj.cons [120] (.str [104, 105]) .nil)), 24) ∧
      (([80, 82, 69, 49, 0, 0, 0, 16, 123, 34, 118, 34, 58, 49, 44, 34, 120, 34,
        58, 34, 104, 105, 34, 125] : List Nat) ++ [7, 9]).drop 24 = [7, 9]) :=
  ⟨⟨rfl, rfl, by decide, by decide, rfl⟩,
    decodePrelude_encodePrelude_roundtrip (JsObj.cons [120] (.str [104, 105]) .nil) [7, 9] {}
      [80, 82, 69, 49, 0, 0, 0, 16, 123, 34, 118, 34, 58, 49, 44, 34, 120, 34,
        58, 34, 104, 105, 34, 125] rfl rfl (by decide) (by decide) rfl⟩

/-- Witness for claim C6 at a concrete input: default marker followed by a
zero length field. -/
theorem decodePrelude_zero_length_fails_witness :
    (assertMagicList (DecodeOpts.mk none none).magic = .ok [DEFAULT_MAGIC] ∧
      MAGIC_LENGTH + LENGTH_BYTES ≤ ([80, 82, 69, 49, 0, 0, 0, 0, 7] : List Nat).length ∧
      [DEFAULT_MAGIC].any (· = ([80, 82, 69, 49, 0, 0, 0, 0, 7] : List Nat).take MAGIC_LENGTH) = true ∧
      readUInt32BE [80, 82, 69, 49, 0, 0, 0, 0, 7] MAGIC_LENGTH = 0) ∧
    decodePrelude [80, 82, 69, 49, 0, 0, 0, 0, 7] {} = .error (.jsonParse emptyPayloadMsg) :=
  ⟨⟨rfl, by decide, by decide, rfl⟩,
    decodePrelude_zero_length_fails [80, 82, 69, 49, 0, 0, 0, 0, 7] {} [DEFAULT_MAGIC]
      rfl (by decide) (by decide) rfl⟩

theorem equivT_refl (r : Except PErr (TState × List TEvent)) : EquivT r r := by
  cases r with
  | error e => exact rfl
  | ok p =>
    obtain ⟨s, evs⟩ := p
    exact ⟨rfl, rfl, rfl⟩

theorem equivT_trans (r1 r2 r3 : Except PErr (TState × List TEvent))
    (h1 : EquivT r1 r2) (h2 : EquivT r2 r3) : EquivT r1 r3 := by
  cases r1 with
  | error e1 =>
    cases r2 with
    | error e2 =>
      cases r3 with
      | error e3 => exact Eq.trans h1 h2
      | ok p3 => obtain ⟨s3, e3⟩ := p3; exact h2.elim
    | ok p2 => obtain ⟨s2, e2⟩ := p2; exact h1.elim
  | ok p1 =>
    obtain ⟨s1, e1⟩ := p1
    cases r2 with
    | error e2 => exact h1.elim
    | ok p2 =>
      obtain ⟨s2, ev2⟩ := p2
      cases r3 with
      | error e3 => exact h2.elim
      | ok p3 =>
        obtain ⟨s3, ev3⟩ := p3
        exact ⟨h1.1.trans h2.1, h1.2.1.trans h2.2.1, h1.2.2.trans h2.2.2⟩

theorem equivT_ok (s1 s2 : TState) (e1 e2 : List TEvent) (h1 : s1 = s2)
    (h2 : preludesOf e1 = preludesOf e2) (h3 : dataOf e1 = dataOf e2) :
    EquivT (.ok (s1, e1)) (.ok (s2, e2)) := ⟨h1, h2, h3⟩

theorem equivT_ok_inv (r : Except PErr (TState × List TEvent)) (s : TState)
    (evs : List TEvent) (h : EquivT r (.ok (s, evs))) :
    ∃ s1 evs1, r = .ok (s1, evs1) ∧ s1 = s ∧
      preludesOf evs1 = preludesOf evs ∧ dataOf evs1 = dataOf evs := by
  cases r with
  | error e => exact h.elim
  | ok p =>
    obtain ⟨s1, e1⟩ := p
    exact ⟨s1, e1, rfl, h.1, h.2.1, h.2.2⟩

theorem seqT_error (e : PErr) (k : TState → Except PErr (TState × List TEvent)) :
    seqT (.error e) k = .error e := rfl

theorem seqT_ok_nil (s : TState) (k : TState → Except PErr (TState × List TEvent)) :
    seqT (.ok (s, [])) k = k s := by
  cases hk : k s with
  | error e => simp [seqT, hk]
  | ok p => obtain ⟨s2, e2⟩ := p; simp [seqT, hk]

theorem flushT_error (e : PErr) : flushT (.error e) = .error e := rfl

theorem flushT_ok_nonbody (s : TState) (evs : List TEvent) (h : ¬ s.stage = .body) :
    flushT (.ok (s, evs)) = .ok (s, evs) := by
  simp [flushT, h]

theorem preludesOf_append (a b : List TEvent) :
    preludesOf (a ++ b) = preludesOf a ++ preludesOf b := by
  induction a with
  | nil => simp [preludesOf]
  | cons e rest ih =>
    cases e with
    | prelude h => simp [preludesOf, ih]
    | data bs => simp [preludesOf, ih]

theorem dataOf_append (a b : List TEvent) :
    dataOf (a ++ b) = dataOf a ++ dataOf b := by
  induction a with
  | nil => simp [dataOf]
  | cons e rest ih =>
    cases e with
    | prelude h => simp [dataOf, ih]
    | data bs => simp [dataOf, ih]

theorem noPrelude_append (a b : List TEvent) :
    noPrelude (a ++ b) = (noPrelude a && noPrelude b) := by
  induction a with
  | nil => simp [noPrelude]
  | cons e rest ih =>
    cases e with
    | prelude h => simp [noPrelude]
    | data bs => simp [noPrelude, ih]

theorem noPrelude_of_preludesOf_nil (a : List TEvent) (h : preludesOf a = []) :
    noPrelude a = true := by
  induction a with
  | nil => simp [noPrelude]
  | cons e rest ih =>
    cases e with
    | prelude hd => simp [preludesOf] at h
    | data bs =>
      simp only [preludesOf] at h
      simp [noPrelude, ih h]

theorem preludesBeforeData_of_noPrelude (a : List TEvent) (h : noPrelude a = true) :
    preludesBeforeData a = true := by
  cases a with
  | nil => simp [preludesBeforeData]
  | cons e rest =>
    cases e with
    | prelude hd => simp [noPrelude] at h
    | data bs =>
      simp only [noPrelude] at h
      simp [preludesBeforeData, h]

theorem preludesBeforeData_append (a b : List TEvent)
    (ha : preludesBeforeData a = true) (hb : noPrelude b = true) :
    preludesBeforeData (a ++ b) = true := by
  induction a with
  | nil => simpa using preludesBeforeData_of_noPrelude b hb
  | cons e rest ih =>
    cases e with
    | prelude hd =>
      simp only [preludesBeforeData] at ha
      simp only [List.cons_append, preludesBeforeData]
      exact ih ha
    | data bs =>
      simp only [preludesBeforeData] at ha
      simp only [List.cons_append, preludesBeforeData, List.append_eq]
      rw [noPrelude_append, ha, hb]
      rfl

theorem bodyFlush_comp (magics : List (List Nat)) (mx : Nat) (nd jl : Nat)
    (b c : List Nat) (evs : List TEvent) :
    EquivT (seqT (flushT (.ok (⟨.body, nd, b, jl⟩, evs)))
        (fun s1 => transformChunk magics mx s1 c))
      (flushT (.ok (⟨.body, nd, b ++ c, jl⟩, evs))) := by
  by_cases hb : b = []
  · subst hb
    by_cases hc : c = []
    · subst hc
      simp [flushT, seqT, transformChunk, drainState]
      exact equivT_refl _
    · simp [flushT, seqT, transformChunk, drainState, hc]
      exact equivT_refl _
  · by_cases hc : c = []
    · subst hc
      simp [flushT, seqT, transformChunk, drainState, hb]
      exact equivT_refl _
    · simp [flushT, seqT, transformChunk, drainState, hb, hc]
      refine equivT_ok _ _ _ _ rfl ?_ ?_
      · simp [preludesOf_append, preludesOf]
      · simp [dataOf_append, dataOf]

theorem drainJson_comp (magics : List (List Nat)) (mx jl : Nat) (b c : List Nat) :
    EquivT (seqT (flushT (drainJson jl b)) (fun s1 => transformChunk magics mx s1 c))
      (flushT (drainJson jl (b ++ c))) := by
  by_cases hlt : b.length < jl
  · rw [show drainJson jl b = .ok (⟨.json, jl, b, jl⟩, []) from by simp [drainJson, hlt]]
    rw [flushT_ok_nonbody _ _ (by simp), seqT_ok_nil]
    simp only [transformChunk, drainState]
    exact equivT_refl _
  · have hge : jl ≤ b.length := Nat.le_of_not_lt hlt
    have hlt2 : ¬ (b ++ c).length < jl := by rw [List.length_append]; omega
    have htake : (b ++ c).take jl = b.take jl := List.take_append_of_le_length hge
    have hdrop : (b ++ c).drop jl = b.drop jl ++ c := List.drop_append_of_le_length hge
    simp only [drainJson, if_neg hlt, if_neg hlt2, htake, hdrop]
    cases hp : jsonParse (b.take jl) with
    | error e =>
      simp only [flushT_error, seqT_error]
      exact equivT_refl _
    | ok parsed =>
      simp only []
      by_cases hpo : isPlainObjectB parsed = true
      · simp only [if_pos hpo]
        exact bodyFlush_comp magics mx 0 jl (b.drop jl) c [.prelude parsed]
      · simp only [if_neg hpo]
        simp only [flushT_error, seqT_error]
        exact equivT_refl _

theorem drainLength_comp (magics : List (List Nat)) (mx jl0 : Nat) (b c : List Nat) :
    EquivT (seqT (flushT (drainLength mx jl0 b)) (fun s1 => transformChunk magics mx s1 c))
      (flushT (drainLength mx jl0 (b ++ c))) := by
  by_cases hlt : b.length < LENGTH_BYTES
  · rw [show drainLength mx jl0 b = .ok (⟨.length, LENGTH_BYTES, b, jl0⟩, []) from by
      simp [drainLength, hlt]]
    rw [flushT_ok_nonbody _ _ (by simp), seqT_ok_nil]
    simp only [transformChunk, drainState]
    exact equivT_refl _
  · have hge : LENGTH_BYTES ≤ b.length := Nat.le_of_not_lt hlt
    have hb4 : 4 ≤ b.length := hge
    have hlt2 : ¬ (b ++ c).length < LENGTH_BYTES := by rw [List.length_append]; omega
    have hread : readUInt32BE (b ++ c) 0 = readUInt32BE b 0 := by
      unfold readUInt32BE
      rw [List.getD_append _ _ _ _ (by omega), List.getD_append _ _ _ _ (by omega),
        List.getD_append _ _ _ _ (by omega), List.getD_append _ _ _ _ (by omega)]
    have hdrop4 : (b ++ c).drop LENGTH_BYTES = b.drop LENGTH_BYTES ++ c :=
      List.drop_append_of_le_length hge
    simp only [drainLength, if_neg hlt, if_neg hlt2, hread, hdrop4]
    cases hv : validateJsonLength (readUInt32BE b 0) mx with
    | error e =>
      simp only [flushT_error, seqT_error]
      exact equivT_refl _
    | ok u =>
      cases u
      exact drainJson_comp magics mx (readUInt32BE b 0) (b.drop LENGTH_BYTES) c

theorem drainMagic_comp (magics : List (List Nat)) (mx jl0 : Nat) (b c : List Nat) :
    EquivT (seqT (flushT (drainMagic magics mx jl0 b))
        (fun s1 => transformChunk magics mx s1 c))
      (flushT (drainMagic magics mx jl0 (b ++ c))) := by
  by_cases hlt : b.length < MAGIC_LENGTH
  · rw [show drainMagic magics mx jl0 b = .ok (⟨.magic, MAGIC_LENGTH, b, jl0⟩, []) from by
      simp [drainMagic, hlt]]
    rw [flushT_ok_nonbody _ _ (by simp), seqT_ok_nil]
    simp only [transformChunk, drainState]
    exact equivT_refl _
  · have hge : MAGIC_LENGTH ≤ b.length := Nat.le_of_not_lt hlt
    have hlt2 : ¬ (b ++ c).length < MAGIC_LENGTH := by rw [List.length_append]; omega
    have htake : (b ++ c).take MAGIC_LENGTH = b.take MAGIC_LENGTH :=
      List.take_append_of_le_length hge
    have hdropM : (b ++ c).drop MAGIC_LENGTH = b.drop MAGIC_LENGTH ++ c :=
      List.drop_append_of_le_length hge
    simp only [drainMagic, if_neg hlt, if_neg hlt2, htake, hdropM]
    by_cases hmm : magics.any (· = b.take MAGIC_LENGTH) = true
    · have hcond : ¬¬ magics.any (· = b.take MAGIC_LENGTH) = true := by simp [hmm]
      simp only [if_neg hcond]
      exact drainLength_comp magics mx jl0 (b.drop MAGIC_LENGTH) c
    · simp only [if_pos hmm]
      refine equivT_trans _
        (flushT (.ok (⟨.body, 0, [] ++ c, jl0⟩,
          [.prelude (.obj .nil), .data (b.take MAGIC_LENGTH)] ++
            if b.drop MAGIC_LENGTH = [] then [] else [.data (b.drop MAGIC_LENGTH)]))) _
        (bodyFlush_comp magics mx 0 jl0 [] c _) ?_
      by_cases hr : b.drop MAGIC_LENGTH = []
      · by_cases hc : c = []
        · simp [flushT, hr, hc]
          exact equivT_refl _
        · simp [flushT, hr, hc]
          refine equivT_ok _ _ _ _ rfl ?_ ?_
          · simp [preludesOf_append, preludesOf]
          · simp [dataOf_append, dataOf]
      · by_cases hc : c = []
        · simp [flushT, hr, hc]
          refine equivT_ok _ _ _ _ rfl ?_ ?_
          · simp [preludesOf_append, preludesOf]
          · simp [dataOf_append, dataOf]
        · simp [flushT, hr, hc]
          refine equivT_ok _ _ _ _ rfl ?_ ?_
          · simp [preludesOf_append, preludesOf]
          · simp [dataOf_append, dataOf]

theorem transformChunk_comp (magics : List (List Nat)) (mx : Nat) (s : TState)
    (c1 c2 : List Nat) :
    EquivT (seqT (transformChunk magics mx s c1) (fun s1 => transformChunk magics mx s1 c2))
      (transformChunk magics mx s (c1 ++ c2)) := by
  obtain ⟨st, nd, buf, jl⟩ := s
  cases st with
  | magic =>
    have h1 : transformChunk magics mx ⟨.magic, nd, buf, jl⟩ c1 =
        flushT (drainMagic magics mx jl (buf ++ c1)) := rfl
    have h2 : transformChunk magics mx ⟨.magic, nd, buf, jl⟩ (c1 ++ c2) =
        flushT (drainMagic magics mx jl (buf ++ (c1 ++ c2))) := rfl
    rw [h1, h2, ← List.append_assoc]
    exact drainMagic_comp magics mx jl (buf ++ c1) c2
  | length =>
    have h1 : transformChunk magics mx ⟨.length, nd, buf, jl⟩ c1 =
        flushT (drainLength mx jl (buf ++ c1)) := rfl
    have h2 : transformChunk magics mx ⟨.length, nd, buf, jl⟩ (c1 ++ c2) =
        flushT (drainLength mx jl (buf ++ (c1 ++ c2))) := rfl
    rw [h1, h2, ← List.append_assoc]
    exact drainLength_comp magics mx jl (buf ++ c1) c2
  | json =>
    have h1 : transformChunk magics mx ⟨.json, nd, buf, jl⟩ c1 =
        flushT (drainJson jl (buf ++ c1)) := rfl
    have h2 : transformChunk magics mx ⟨.json, nd, buf, jl⟩ (c1 ++ c2) =
        flushT (drainJson jl (buf ++ (c1 ++ c2))) := rfl
    rw [h1, h2, ← List.append_assoc]
    exact drainJson_comp magics mx jl (buf ++ c1) c2
  | body =>
    have h1 : transformChunk magics mx ⟨.body, nd, buf, jl⟩ c1 =
        flushT (.ok (⟨.body, nd, buf ++ c1, jl⟩, [])) := rfl
    have h2 : transformChunk magics mx ⟨.body, nd, buf, jl⟩ (c1 ++ c2) =
        flushT (.ok (⟨.body, nd, buf ++ (c1 ++ c2), jl⟩, [])) := rfl
    rw [h1, h2, ← List.append_assoc]
    exact bodyFlush_comp magics mx nd jl (buf ++ c1) c2 []

theorem seqT_congr (r : Except PErr (TState × List TEvent))
    (k1 k2 : TState → Except PErr (TState × List TEvent))
    (h : ∀ s, EquivT (k1 s) (k2 s)) : EquivT (seqT r k1) (seqT r k2) := by
  cases r with
  | error e => exact rfl
  | ok p =>
    obtain ⟨s, evs⟩ := p
    have hs := h s
    cases hk1 : k1 s with
    | error e1 =>
      cases hk2 : k2 s with
      | error e2 =>
        rw [hk1, hk2] at hs
        simp only [seqT, hk1, hk2]
        exact hs
      | ok p2 =>
        obtain ⟨s2, e2⟩ := p2
        rw [hk1, hk2] at hs
        exact hs.elim
    | ok p1 =>
      obtain ⟨s1, e1⟩ := p1
      cases hk2 : k2 s with
      | error e2 =>
        rw [hk1, hk2] at hs
        exact hs.elim
      | ok p2 =>
        obtain ⟨s2, e2⟩ := p2
        rw [hk1, hk2] at hs
        simp only [seqT, hk1, hk2]
        exact ⟨hs.1, by rw [preludesOf_append, preludesOf_append, hs.2.1],
          by rw [dataOf_append, dataOf_append, hs.2.2]⟩

theorem runChunks_cons (magics : List (List Nat)) (mx : Nat) (s : TState) (c : List Nat)
    (cs : List (List Nat)) :
    runChunks magics mx s (c :: cs) =
      seqT (transformChunk magics mx s c) (fun s1 => runChunks magics mx s1 cs) := by
  cases ht : transformChunk magics mx s c with
  | error e => simp [runChunks, seqT, ht]
  | ok p =>
    obtain ⟨s1, e1⟩ := p
    cases hr : runChunks magics mx s1 cs with
    | error e => simp [runChunks, seqT, ht, hr]
    | ok p2 =>
      obtain ⟨s2, e2⟩ := p2
      simp [runChunks, seqT, ht, hr]

theorem runChunks_concat (magics : List (List Nat)) (mx : Nat) :
    ∀ (css : List (List Nat)) (s : TState), css ≠ [] →
      EquivT (runChunks magics mx s css) (transformChunk magics mx s (concatChunks css)) := by
  intro css
  induction css with
  | nil => intro s h; exact absurd rfl h
  | cons c cs ih =>
    intro s _
    rw [runChunks_cons]
    have hcc : concatChunks (c :: cs) = c ++ concatChunks cs := by simp [concatChunks]
    rw [hcc]
    by_cases hcs : cs = []
    · subst hcs
      have hnil : concatChunks ([] : List (List Nat)) = [] := rfl
      rw [hnil, List.append_nil]
      cases ht : transformChunk magics mx s c with
      | error e =>
        rw [seqT_error]
        exact equivT_refl _
      | ok p =>
        obtain ⟨s1, e1⟩ := p
        simp only [seqT, runChunks]
        exact equivT_ok _ _ _ _ rfl (by rw [List.append_nil]) (by rw [List.append_nil])
    · refine equivT_trans _
        (seqT (transformChunk magics mx s c)
          (fun s1 => transformChunk magics mx s1 (concatChunks cs))) _ ?_ ?_
      · exact seqT_congr _ _ _ (fun s1 => ih s1 hcs)
      · exact transformChunk_comp magics mx s c (concatChunks cs)

theorem getD_drop (l : List Nat) (k i : Nat) : (l.drop k).getD i 0 = l.getD (k + i) 0 := by
  simp [List.getD_eq_getElem?_getD, List.getElem?_drop]

theorem transformChunk_of_decode (magics : List (List Nat)) (mx : Nat) (buf : List Nat)
    (header : JsValue) (offset : Nat)
    (hdec : decodePreludeCore magics mx buf = .ok (header, offset)) :
    ∃ evs, transformChunk magics mx initialTState buf =
        .ok (⟨.body, 0, [], readUInt32BE buf MAGIC_LENGTH⟩, evs) ∧
      preludesOf evs = [header] ∧ dataOf evs = buf.drop offset := by
  simp only [decodePreludeCore] at hdec
  by_cases h1 : buf.length < MAGIC_LENGTH + LENGTH_BYTES
  · rw [if_pos h1] at hdec
    simp at hdec
  rw [if_neg h1] at hdec
  by_cases h2 : magics.any (· = buf.take MAGIC_LENGTH) = true
  · rw [if_neg (by simp [h2])] at hdec
    cases hv : validateJsonLength (readUInt32BE buf MAGIC_LENGTH) mx with
    | error e =>
      rw [hv] at hdec
      simp at hdec
    | ok u =>
      cases u
      rw [hv] at hdec
      simp only [] at hdec
      by_cases h3 : buf.length < MAGIC_LENGTH + LENGTH_BYTES + readUInt32BE buf MAGIC_LENGTH
      · rw [if_pos h3] at hdec
        simp at hdec
      rw [if_neg h3] at hdec
      cases hp : jsonParse ((buf.drop (MAGIC_LENGTH + LENGTH_BYTES)).take
          (readUInt32BE buf MAGIC_LENGTH)) with
      | error e =>
        rw [hp] at hdec
        simp at hdec
      | ok parsed =>
        rw [hp] at hdec
        simp only [] at hdec
        by_cases h4 : isPlainObjectB parsed = true
        · rw [if_pos h4] at hdec
          simp only [Except.ok.injEq, Prod.mk.injEq] at hdec
          obtain ⟨hph, hoff⟩ := hdec
          subst hph
          have h8 : 8 ≤ buf.length := Nat.le_of_not_lt h1
          have h3' : 8 + readUInt32BE buf MAGIC_LENGTH ≤ buf.length := Nat.le_of_not_lt h3
          have e1 : transformChunk magics mx initialTState buf =
              flushT (drainMagic magics mx 0 buf) := by
            simp [transformChunk, initialTState, drainState]
          have hm4 : ¬ buf.length < MAGIC_LENGTH := by
            show ¬ buf.length < 4
            omega
          have e2 : drainMagic magics mx 0 buf = drainLength mx 0 (buf.drop MAGIC_LENGTH) := by
            simp only [drainMagic, if_neg hm4]
            rw [if_neg (by simp [h2])]
          have hlen_drop : ¬ (buf.drop MAGIC_LENGTH).length < LENGTH_BYTES := by
            rw [List.length_drop]
            show ¬ buf.length - 4 < 4
            omega
          have hread0 : readUInt32BE (buf.drop MAGIC_LENGTH) 0 = readUInt32BE buf MAGIC_LENGTH := by
            simp [readUInt32BE, getD_drop]
          have e3 : drainLength mx 0 (buf.drop MAGIC_LENGTH) =
              drainJson (readUInt32BE buf MAGIC_LENGTH)
                (buf.drop (MAGIC_LENGTH + LENGTH_BYTES)) := by
            simp only [drainLength, if_neg hlen_drop, hread0, hv]
            rw [List.drop_drop]
          have hjlen : ¬ (buf.drop (MAGIC_LENGTH + LENGTH_BYTES)).length <
              readUInt32BE buf MAGIC_LENGTH := by
            rw [List.length_drop]
            show ¬ buf.length - 8 < readUInt32BE buf MAGIC_LENGTH
            omega
          have e4 : drainJson (readUInt32BE buf MAGIC_LENGTH)
              (buf.drop (MAGIC_LENGTH + LENGTH_BYTES)) =
              .ok (⟨.body, 0, buf.drop offset, readUInt32BE buf MAGIC_LENGTH⟩,
                [.prelude parsed]) := by
            simp only [drainJson, if_neg hjlen, hp, if_pos h4]
            rw [List.drop_drop, hoff]
          by_cases hrem : buf.drop offset = []
          · refine ⟨[.prelude parsed], ?_, by simp [preludesOf], by simp [dataOf, hrem]⟩
            rw [e1, e2, e3, e4]
            simp [flushT, hrem]
          · refine ⟨[.prelude parsed, .data (buf.drop offset)], ?_, by simp [preludesOf],
              by simp [dataOf]⟩
            rw [e1, e2, e3, e4]
            simp [flushT, hrem]
        · rw [if_neg h4] at hdec
          simp at hdec
  · rw [if_pos (by simpa using h2)] at hdec
    simp at hdec

/-- Claim C2: chunk-boundary invariance of the incremental parser.  For
every buffer that decodePrelude accepts and every way of splitting it into
an ordered chunk sequence, feeding the chunks one at a time to the
parsePreludeTransform state machine succeeds, emits exactly the decoded
header as its prelude event, and forwards downstream exactly the bytes of
the buffer from the decoded body offset on. -/
theorem parsePreludeTransform_eq_decodePrelude (magic : Option (List (List Nat)))
    (maxJsonBytes : Option Nat) (css : List (List Nat)) (header : JsValue) (offset : Nat)
    (hne : css ≠ [])
    (hdec : decodePrelude (concatChunks css) ⟨magic, maxJsonBytes⟩ = .ok (header, offset)) :
    ∃ s evs, parsePreludeTransform magic maxJsonBytes css = .ok (s, evs) ∧
      preludesOf evs = [header] ∧ dataOf evs = (concatChunks css).drop offset := by
  simp only [decodePrelude] at hdec
  cases hm : assertMagicList magic with
  | error e =>
    rw [hm] at hdec
    simp at hdec
  | ok magics =>
    rw [hm] at hdec
    simp only [] at hdec
    obtain ⟨evs0, ht, hpre, hdata⟩ := transformChunk_of_decode magics
      (maxJsonBytes.getD DEFAULT_MAX_JSON_BYTES) (concatChunks css) header offset hdec
    have hequiv := runChunks_concat magics (maxJsonBytes.getD DEFAULT_MAX_JSON_BYTES)
      css initialTState hne
    rw [ht] at hequiv
    obtain ⟨s1, evs1, hrun, _, hp1, hd1⟩ := equivT_ok_inv _ _ _ hequiv
    refine ⟨s1, evs1, ?_, hp1.trans hpre, hd1.trans hdata⟩
    simp only [parsePreludeTransform, hm]
    exact hrun

/-- Witness for claim C2 at a concrete input: the frame for the header
with one entry x: "hi" plus the body bytes 1, 2, 3, split into four chunks
cutting through the marker, the length field, the payload and the body. -/
theorem parsePreludeTransform_eq_decodePrelude_witness :
    (([[80, 82], [69, 49, 0, 0, 0, 16, 123],
        [34, 118, 34, 58, 49, 44, 34, 120, 34, 58, 34, 104, 105, 34, 125, 1],
        [2, 3]] : List (List Nat)) ≠ [] ∧
      decodePrelude (concatChunks [[80, 82], [69, 49, 0, 0, 0, 16, 123],
          [34, 118, 34, 58, 49, 44, 34, 120, 34, 58, 34, 104, 105, 34, 125, 1], [2, 3]])
        ⟨none, none⟩ =
        .ok (.obj (.cons keyV (.num (.int 1)) (.cons [120] (.str [104, 105]) .nil)), 24)) ∧
    ∃ s evs, parsePreludeTransform none none [[80, 82], [69, 49, 0, 0, 0, 16, 123],
        [34, 118, 34, 58, 49, 44, 34, 120, 34, 58, 34, 104, 105, 34, 125, 1], [2, 3]] =
        .ok (s, evs) ∧
      preludesOf evs =
        [.obj (.cons keyV (.num (.int 1)) (.cons [120] (.str [104, 105]) .nil))] ∧
      dataOf evs = (concatChunks [[80, 82], [69, 49, 0, 0, 0, 16, 123],
        [34, 118, 34, 58, 49, 44, 34, 120, 34, 58, 34, 104, 105, 34, 125, 1], [2, 3]]).drop 24 :=
  ⟨⟨by simp, rfl⟩,
    parsePreludeTransform_eq_decodePrelude none none
      [[80, 82], [69, 49, 0, 0, 0, 16, 123],
        [34, 118, 34, 58, 49, 44, 34, 120, 34, 58, 34, 104, 105, 34, 125, 1], [2, 3]]
      (.obj (.cons keyV (.num (.int 1)) (.cons [120] (.str [104, 105]) .nil))) 24
      (by simp) rfl⟩

theorem drainJson_shape (jl : Nat) (b : List Nat) (s1 : TState) (evs : List TEvent)
    (h : drainJson jl b = .ok (s1, evs)) : stepShape s1 evs := by
  simp only [drainJson] at h
  by_cases hlt : b.length < jl
  · rw [if_pos hlt] at h
    simp only [Except.ok.injEq, Prod.mk.injEq] at h
    obtain ⟨hs, he⟩ := h
    subst hs
    subst he
    exact Or.inl ⟨by simp, rfl⟩
  · rw [if_neg hlt] at h
    cases hp : jsonParse (b.take jl) with
    | error e =>
      rw [hp] at h
      simp at h
    | ok parsed =>
      rw [hp] at h
      simp only [] at h
      by_cases hpo : isPlainObjectB parsed = true
      · rw [if_pos hpo] at h
        simp only [Except.ok.injEq, Prod.mk.injEq] at h
        obtain ⟨hs, he⟩ := h
        subst hs
        subst he
        exact Or.inr ⟨rfl, by simp [preludesOf], by simp [preludesBeforeData]⟩
      · rw [if_neg hpo] at h
        simp at h

theorem drainLength_shape (mx jl0 : Nat) (b : List Nat) (s1 : TState) (evs : List TEvent)
    (h : drainLength mx jl0 b = .ok (s1, evs)) : stepShape s1 evs := by
  simp only [drainLength] at h
  by_cases hlt : b.length < LENGTH_BYTES
  · rw [if_pos hlt] at h
    simp only [Except.ok.injEq, Prod.mk.injEq] at h
    obtain ⟨hs, he⟩ := h
    subst hs
    subst he
    exact Or.inl ⟨by simp, rfl⟩
  · rw [if_neg hlt] at h
    cases hv : validateJsonLength (readUInt32BE b 0) mx with
    | error e =>
      rw [hv] at h
      simp at h
    | ok u =>
      cases u
      rw [hv] at h
      simp only [] at h
      exact drainJson_shape _ _ _ _ h

theorem drainMagic_shape (magics : List (List Nat)) (mx jl0 : Nat) (b : List Nat)
    (s1 : TState) (evs : List TEvent)
    (h : drainMagic magics mx jl0 b = .ok (s1, evs)) : stepShape s1 evs := by
  simp only [drainMagic] at h
  by_cases hlt : b.length < MAGIC_LENGTH
  · rw [if_pos hlt] at h
    simp only [Except.ok.injEq, Prod.mk.injEq] at h
    obtain ⟨hs, he⟩ := h
    subst hs
    subst he
    exact Or.inl ⟨by simp, rfl⟩
  · rw [if_neg hlt] at h
    by_cases hmm : magics.any (· = b.take MAGIC_LENGTH) = true
    · rw [if_neg (by simp [hmm])] at h
      exact drainLength_shape _ _ _ _ _ h
    · rw [if_pos hmm] at h
      simp only [Except.ok.injEq, Prod.mk.injEq] at h
      obtain ⟨hs, he⟩ := h
      subst hs
      subst he
      right
      refine ⟨rfl, ?_, ?_⟩
      · by_cases hr : b.drop MAGIC_LENGTH = [] <;>
          simp [hr, preludesOf_append, preludesOf]
      · by_cases hr : b.drop MAGIC_LENGTH = [] <;>
          simp [hr, preludesBeforeData, noPrelude]

theorem flushT_shape (r : Except PErr (TState × List TEvent)) (s1 : TState)
    (evs : List TEvent)
    (hr : ∀ s0 evs0, r = .ok (s0, evs0) → stepShape s0 evs0)
    (h : flushT r = .ok (s1, evs)) : stepShape s1 evs := by
  cases r with
  | error e =>
    rw [flushT_error] at h
    simp at h
  | ok p =>
    obtain ⟨s0, evs0⟩ := p
    have hs := hr s0 evs0 rfl
    simp only [flushT] at h
    by_cases hcond : s0.stage = .body ∧ s0.buffer ≠ []
    · rw [if_pos hcond] at h
      simp only [Except.ok.injEq, Prod.mk.injEq] at h
      obtain ⟨h1, h2⟩ := h
      rcases hs with ⟨hne, _⟩ | ⟨hb, hlen, hbd⟩
      · exact absurd hcond.1 hne
      · subst h1
        subst h2
        right
        refine ⟨hb, ?_, ?_⟩
        · rw [preludesOf_append]
          simp [preludesOf, hlen]
        · exact preludesBeforeData_append evs0 [.data s0.buffer] hbd (by simp [noPrelude])
    · rw [if_neg hcond] at h
      simp only [Except.ok.injEq, Prod.mk.injEq] at h
      obtain ⟨h1, h2⟩ := h
      subst h1
      subst h2
      exact hs

theorem transformChunk_step (magics : List (List Nat)) (mx : Nat) (s : TState) (c : List Nat)
    (s1 : TState) (evs : List TEvent)
    (h : transformChunk magics mx s c = .ok (s1, evs)) :
    (¬ s.stage = .body → stepShape s1 evs) ∧
    (s.stage = .body → s1.stage = .body ∧ preludesOf evs = []) := by
  obtain ⟨st, nd, buf, jl⟩ := s
  cases st with
  | magic =>
    refine ⟨fun _ => ?_, fun hb => by simp at hb⟩
    have hd : transformChunk magics mx ⟨.magic, nd, buf, jl⟩ c =
        flushT (drainMagic magics mx jl (buf ++ c)) := rfl
    rw [hd] at h
    exact flushT_shape _ _ _
      (fun s0 evs0 h0 => drainMagic_shape magics mx jl (buf ++ c) s0 evs0 h0) h
  | length =>
    refine ⟨fun _ => ?_, fun hb => by simp at hb⟩
    have hd : transformChunk magics mx ⟨.length, nd, buf, jl⟩ c =
        flushT (drainLength mx jl (buf ++ c)) := rfl
    rw [hd] at h
    exact flushT_shape _ _ _
      (fun s0 evs0 h0 => drainLength_shape mx jl (buf ++ c) s0 evs0 h0) h
  | json =>
    refine ⟨fun _ => ?_, fun hb => by simp at hb⟩
    have hd : transformChunk magics mx ⟨.json, nd, buf, jl⟩ c =
        flushT (drainJson jl (buf ++ c)) := rfl
    rw [hd] at h
    exact flushT_shape _ _ _
      (fun s0 evs0 h0 => drainJson_shape jl (buf ++ c) s0 evs0 h0) h
  | body =>
    refine ⟨fun hnb => absurd rfl hnb, fun _ => ?_⟩
    have hd : transformChunk magics mx ⟨.body, nd, buf, jl⟩ c =
        flushT (.ok (⟨.body, nd, buf ++ c, jl⟩, [])) := rfl
    rw [hd] at h
    simp only [flushT] at h
    by_cases hbc : buf ++ c = []
    · rw [if_neg (by simp [hbc])] at h
      simp only [Except.ok.injEq, Prod.mk.injEq] at h
      obtain ⟨h1, h2⟩ := h
      subst h1
      subst h2
      exact ⟨rfl, by simp [preludesOf]⟩
    · rw [if_pos (by simp [hbc])] at h
      simp only [Except.ok.injEq, Prod.mk.injEq] at h
      obtain ⟨h1, h2⟩ := h
      subst h1
      subst h2
      exact ⟨rfl, by simp [preludesOf]⟩

theorem runChunks_shape (magics : List (List Nat)) (mx : Nat) :
    ∀ (css : List (List Nat)) (s s2 : TState) (evs : List TEvent),
      runChunks magics mx s css = .ok (s2, evs) →
      ((¬ s.stage = .body →
        (preludesOf evs).length ≤ 1 ∧ preludesBeforeData evs = true ∧
          (¬ dataOf evs = [] → (preludesOf evs).length = 1)) ∧
      (s.stage = .body → preludesOf evs = [])) := by
  intro css
  induction css with
  | nil =>
    intro s s2 evs h
    simp only [runChunks, Except.ok.injEq, Prod.mk.injEq] at h
    obtain ⟨h1, h2⟩ := h
    subst h2
    exact ⟨fun _ => ⟨by simp [preludesOf], by simp [preludesBeforeData],
      fun hd => absurd (by simp [dataOf]) hd⟩, fun _ => by simp [preludesOf]⟩
  | cons c cs ih =>
    intro s s2 evs h
    rw [runChunks_cons] at h
    cases ht : transformChunk magics mx s c with
    | error e =>
      rw [ht, seqT_error] at h
      simp at h
    | ok p =>
      obtain ⟨s1, e1⟩ := p
      rw [ht] at h
      simp only [seqT] at h
      cases hr : runChunks magics mx s1 cs with
      | error e2 =>
        rw [hr] at h
        simp at h
      | ok p2 =>
        obtain ⟨s2', e2⟩ := p2
        rw [hr] at h
        simp only [Except.ok.injEq, Prod.mk.injEq] at h
        obtain ⟨hs2, hevs⟩ := h
        subst hevs
        have hstep := transformChunk_step magics mx s c s1 e1 ht
        have hih := ih s1 s2' e2 hr
        constructor
        · intro hnb
          rcases hstep.1 hnb with ⟨h1ne, h1e⟩ | ⟨h1b, h1len, h1bd⟩
          · subst h1e
            simp only [List.nil_append]
            exact hih.1 h1ne
          · have he2 := hih.2 h1b
            have hnp2 : noPrelude e2 = true := noPrelude_of_preludesOf_nil e2 he2
            refine ⟨?_, ?_, ?_⟩
            · simp [preludesOf_append, he2, h1len]
            · exact preludesBeforeData_append e1 e2 h1bd hnp2
            · intro _
              simp [preludesOf_append, he2, h1len]
        · intro hb
          obtain ⟨h1b, h1pre⟩ := hstep.2 hb
          have he2 := hih.2 h1b
          simp [preludesOf_append, h1pre, he2]

/-- Claim C9: in the push-mode adapter, over every chunk sequence the run
accepts, at most one prelude event is emitted, every prelude event
precedes every forwarded data byte, and once any body byte has been
forwarded the prelude event has been emitted exactly once. -/
theorem parsePreludeTransform_prelude_once (magic : Option (List (List Nat)))
    (maxJsonBytes : Option Nat) (css : List (List Nat)) (s : TState) (evs : List TEvent)
    (h : parsePreludeTransform magic maxJsonBytes css = .ok (s, evs)) :
    (preludesOf evs).length ≤ 1 ∧ preludesBeforeData evs = true ∧
      (¬ dataOf evs = [] → (preludesOf evs).length = 1) := by
  simp only [parsePreludeTransform] at h
  cases hm : assertMagicList magic with
  | error e =>
    rw [hm] at h
    simp at h
  | ok magics =>
    rw [hm] at h
    simp only [] at h
    exact (runChunks_shape magics (maxJsonBytes.getD DEFAULT_MAX_JSON_BYTES) css
      initialTState s evs h).1 (by simp [initialTState])

/-- Witness for claim C9 at a concrete input: a stream with no marker,
split into two chunks; the empty prelude is emitted once, before the
probed and remaining bytes are forwarded. -/
theorem parsePreludeTransform_prelude_once_witness :
    parsePreludeTransform none none [[88, 89], [90, 91, 5, 6]] =
      .ok (⟨.body, 0, [], 0⟩,
        [.prelude (.obj .nil), .data [88, 89, 90, 91], .data [5, 6]]) ∧
    ((preludesOf [.prelude (.obj .nil), .data [88, 89, 90, 91], .data [5, 6]]).length ≤ 1 ∧
      preludesBeforeData [.prelude (.obj .nil), .data [88, 89, 90, 91], .data [5, 6]] = true ∧
      (¬ dataOf [.prelude (.obj .nil), .data [88, 89, 90, 91], .data [5, 6]] = [] →
        (preludesOf [.prelude (.obj .nil), .data [88, 89, 90, 91], .data [5, 6]]).length = 1)) :=
  ⟨rfl, parsePreludeTransform_prelude_once none none [[88, 89], [90, 91, 5, 6]] _ _ rfl⟩

theorem remainderWithBytes_contentBytes (s : Source) (bs : List Nat) :
    (remainderWithBytes s bs).contentBytes = bs ++ s.bytes := by
  by_cases h1 : s.hasUnshift = false <;> by_cases h2 : s.flowing = true <;>
    by_cases h3 : 0 < s.readableLength <;>
      simp [remainderWithBytes, tryUnshiftRemainderWithBytes, h1, h2, h3,
        passThroughRemainderWithBytes, Remainder.contentBytes]

/-- Claim C3: fallback idempotence.  For every source whose first four
bytes are not in the configured marker set, with requirePrelude unset and
the flow guard passing, parsePrelude succeeds with the empty header object
and a remainder whose concatenated bytes equal the original input exactly,
the probed four bytes included. -/
theorem parsePrelude_fallback_idempotent (src : Source) (opts : ParseOpts)
    (magics : List (List Nat))
    (hm : assertMagicList opts.magic = .ok magics)
    (hrp : opts.requirePrelude = false)
    (hg : src.flowing = true ∧ 0 < src.dataListeners → opts.autoPause = true)
    (h4 : MAGIC_LENGTH ≤ src.bytes.length)
    (hmiss : magics.any (· = src.bytes.take MAGIC_LENGTH) = false) :
    ∃ rem sOut, parsePrelude src opts = .ok (⟨.obj .nil, rem⟩, sOut) ∧
      rem.contentBytes = src.bytes := by
  have hre : readExactly (pauseSource src) MAGIC_LENGTH =
      .ok (src.bytes.take MAGIC_LENGTH,
        { src with flowing := false, bytes := src.bytes.drop MAGIC_LENGTH }) := by
    simp only [readExactly, pauseSource]
    rw [if_pos h4]
  have hcont : ∀ sg : Source, flowGuard opts.autoPause src = .ok sg →
      pauseSource sg = pauseSource src →
      parsePreludeTry magics (opts.maxJsonBytes.getD DEFAULT_MAX_JSON_BYTES)
        opts.requirePrelude opts.autoPause src =
      .ok (⟨.obj .nil, remainderWithBytes
          { src with flowing := false, bytes := src.bytes.drop MAGIC_LENGTH }
          (src.bytes.take MAGIC_LENGTH)⟩,
        { src with flowing := false, bytes := src.bytes.drop MAGIC_LENGTH }) := by
    intro sg hsg hsp
    simp only [parsePreludeTry, hsg, hsp, hre]
    rw [if_pos (by simp [hmiss])]
    rw [hrp]
    simp
  have htry : parsePreludeTry magics (opts.maxJsonBytes.getD DEFAULT_MAX_JSON_BYTES)
      opts.requirePrelude opts.autoPause src =
      .ok (⟨.obj .nil, remainderWithBytes
          { src with flowing := false, bytes := src.bytes.drop MAGIC_LENGTH }
          (src.bytes.take MAGIC_LENGTH)⟩,
        { src with flowing := false, bytes := src.bytes.drop MAGIC_LENGTH }) := by
    by_cases hf : src.flowing = true ∧ 0 < src.dataListeners
    · exact hcont (pauseSource src) (by simp [flowGuard, hf, hg hf]) rfl
    · exact hcont src (by simp [flowGuard, hf]) rfl
  refine ⟨remainderWithBytes
      { src with flowing := false, bytes := src.bytes.drop MAGIC_LENGTH }
      (src.bytes.take MAGIC_LENGTH),
    { src with flowing := false, bytes := src.bytes.drop MAGIC_LENGTH }, ?_, ?_⟩
  · simp only [parsePrelude, hm, htry]
  · rw [remainderWithBytes_contentBytes]
    simp [List.take_append_drop]

/-- Witness for claim C3 at a concrete input: six bytes starting with
XXXX against the default marker set. -/
theorem parsePrelude_fallback_idempotent_witness :
    (assertMagicList (ParseOpts.mk none none false false).magic = .ok [DEFAULT_MAGIC] ∧
      MAGIC_LENGTH ≤ ([88, 88, 88, 88, 7, 7] : List Nat).length ∧
      [DEFAULT_MAGIC].any (· = ([88, 88, 88, 88, 7, 7] : List Nat).take MAGIC_LENGTH) = false) ∧
    ∃ rem sOut,
      parsePrelude ⟨[88, 88, 88, 88, 7, 7], false, 0, true, 0, none, none⟩ {} =
        .ok (⟨.obj .nil, rem⟩, sOut) ∧
      rem.contentBytes = [88, 88, 88, 88, 7, 7] :=
  ⟨⟨rfl, by decide, by decide⟩,
    parsePrelude_fallback_idempotent ⟨[88, 88, 88, 88, 7, 7], false, 0, true, 0, none, none⟩
      {} [DEFAULT_MAGIC] rfl rfl (fun h => absurd h.1 (by decide)) (by decide) (by decide)⟩

/-- Claim C7: flowing-mode guard.  For every source in active flowing mode
with data listeners attached, parsePrelude without autoPause fails with
the flowing-mode error before any byte is read (the destroyed source
still holds all its bytes), and with autoPause it behaves exactly as on
the paused source. -/
theorem parsePrelude_flowing_guard (src : Source) (opts : ParseOpts)
    (magics : List (List Nat))
    (hm : assertMagicList opts.magic = .ok magics)
    (hflow : src.flowing = true) (hlis : 0 < src.dataListeners) :
    (opts.autoPause = false →
      parsePrelude src opts = .error (.flowingMode, destroySource src .flowingMode) ∧
      (destroySource src .flowingMode).bytes = src.bytes) ∧
    (opts.autoPause = true →
      parsePrelude src opts = parsePrelude { src with flowing := false } opts) := by
  have hc1 : src.flowing = true ∧ 0 < src.dataListeners := ⟨hflow, hlis⟩
  constructor
  · intro hap
    refine ⟨?_, rfl⟩
    simp only [parsePrelude, hm, parsePreludeTry, flowGuard, if_pos hc1, hap]
    simp
  · intro hap
    have hc2 : ¬ (({ src with flowing := false } : Source).flowing = true ∧
        0 < ({ src with flowing := false } : Source).dataListeners) := by simp
    simp only [parsePrelude, hm, parsePreludeTry, flowGuard, if_pos hc1, if_neg hc2, hap]
    rfl

/-- Witness for claim C7 at a concrete input: a flowing source with one
data listener, first without autoPause (immediate flowing-mode failure,
bytes untouched), then with autoPause (equal to the run on the paused
source). -/
theorem parsePrelude_flowing_guard_witness :
    (parsePrelude ⟨[1, 2, 3, 4, 5], true, 1, true, 0, none, none⟩ {} =
      .error (.flowingMode,
        destroySource ⟨[1, 2, 3, 4, 5], true, 1, true, 0, none, none⟩ .flowingMode)) ∧
    (parsePrelude ⟨[1, 2, 3, 4, 5], true, 1, true, 0, none, none⟩ ⟨none, none, false, true⟩ =
      parsePrelude ⟨[1, 2, 3, 4, 5], false, 1, true, 0, none, none⟩
        ⟨none, none, false, true⟩) :=
  ⟨((parsePrelude_flowing_guard ⟨[1, 2, 3, 4, 5], true, 1, true, 0, none, none⟩ {}
      [DEFAULT_MAGIC] rfl rfl (by decide)).1 rfl).1,
    ((parsePrelude_flowing_guard ⟨[1, 2, 3, 4, 5], true, 1, true, 0, none, none⟩
      ⟨none, none, false, true⟩ [DEFAULT_MAGIC] rfl rfl (by decide)).2 rfl).trans rfl⟩

/-- Claim C8: destruction on error.  Whenever parsePrelude terminates with
an error from its try block (truncation, marker mismatch under
requirePrelude, invalid length, JSON parse failure, invalid payload type
or flow-guard violation), the source carried with the rejection has been
destroyed with that same error. -/
theorem parsePrelude_destroys_source_on_error (src : Source) (opts : ParseOpts)
    (magics : List (List Nat)) (e : PErr) (sErr : Source)
    (hm : assertMagicList opts.magic = .ok magics)
    (h : parsePrelude src opts = .error (e, sErr)) :
    sErr.destroyed = some e := by
  simp only [parsePrelude, hm] at h
  cases ht : parsePreludeTry magics (opts.maxJsonBytes.getD DEFAULT_MAX_JSON_BYTES)
      opts.requirePrelude opts.autoPause src with
  | error p =>
    obtain ⟨e0, s0⟩ := p
    rw [ht] at h
    simp only [Except.error.injEq, Prod.mk.injEq] at h
    obtain ⟨he, hs⟩ := h
    subst he
    subst hs
    rfl
  | ok r =>
    rw [ht] at h
    simp at h

/-- Witness for claim C8 at a concrete input: a two-byte source is too
short for the marker read, so parsePrelude rejects with the truncation
error and the carried source is destroyed with it. -/
theorem parsePrelude_destroys_source_on_error_witness :
    (parsePrelude ⟨[80, 82], false, 0, true, 0, none, none⟩ {} =
      .error (.truncated, ⟨[80, 82], false, 0, true, 0, none, some .truncated⟩)) ∧
    (⟨[80, 82], false, 0, true, 0, none, some .truncated⟩ : Source).destroyed =
      some .truncated :=
  ⟨rfl,
    parsePrelude_destroys_source_on_error ⟨[80, 82], false, 0, true, 0, none, none⟩ {}
      [DEFAULT_MAGIC] .truncated ⟨[80, 82], false, 0, true, 0, none, some .truncated⟩
      rfl rfl⟩

/-- Claim C10: probe consumption.  With the flow-guard refusal not
triggered, isFramedStream consumes exactly the first four bytes of the
source without unshifting them back — the final source is positioned past
them whatever the boolean answer — and on a source holding fewer than
four bytes (whether it then ends or raises an error) it resolves to false
instead of rejecting. -/
theorem isFramedStream_probe_consumption (src : Source) (magic : Option (List (List Nat)))
    (magics : List (List Nat))
    (hm : assertMagicList magic = .ok magics)
    (hflow : ¬ (src.flowing = true ∧ 0 < src.dataListeners)) :
    (MAGIC_LENGTH ≤ src.bytes.length →
      isFramedStream src magic =
        .ok (magics.any (· = src.bytes.take MAGIC_LENGTH),
          { src with flowing := false, bytes := src.bytes.drop MAGIC_LENGTH })) ∧
    (src.bytes.length < MAGIC_LENGTH →
      isFramedStream src magic = .ok (false, pauseSource src)) := by
  constructor
  · intro h4
    have hre : readExactly (pauseSource src) MAGIC_LENGTH =
        .ok (src.bytes.take MAGIC_LENGTH,
          { src with flowing := false, bytes := src.bytes.drop MAGIC_LENGTH }) := by
      simp only [readExactly, pauseSource]
      rw [if_pos h4]
    simp only [isFramedStream, hm, if_neg hflow, hre]
  · intro hlt
    have hre : ∃ e, readExactly (pauseSource src) MAGIC_LENGTH = .error e := by
      simp only [readExactly, pauseSource]
      rw [if_neg (by omega)]
      cases hse : src.srcError with
      | some e2 => exact ⟨e2, rfl⟩
      | none => exact ⟨.truncated, rfl⟩
    obtain ⟨e, hre⟩ := hre
    simp only [isFramedStream, hm, if_neg hflow, hre]

/-- Witness for claim C10 at concrete inputs: a framed six-byte source
(probe true, four bytes consumed and not restored) and a two-byte source
(probe false instead of an error). -/
theorem isFramedStream_probe_consumption_witness :
    (isFramedStream ⟨[80, 82, 69, 49, 9, 9], false, 0, true, 0, none, none⟩ none =
      .ok (true, ⟨[9, 9], false, 0, true, 0, none, none⟩)) ∧
    (isFramedStream ⟨[80, 82], false, 0, true, 0, none, none⟩ none =
      .ok (false, ⟨[80, 82], false, 0, true, 0, none, none⟩)) :=
  ⟨((isFramedStream_probe_consumption ⟨[80, 82, 69, 49, 9, 9], false, 0, true, 0, none, none⟩
      none [DEFAULT_MAGIC] rfl (by decide)).1 (by decide)).trans rfl,
    ((isFramedStream_probe_consumption ⟨[80, 82], false, 0, true, 0, none, none⟩
      none [DEFAULT_MAGIC] rfl (by decide)).2 (by decide)).trans rfl⟩

end StreamPrelude
